import Mathlib

/-!
Verification of the prisma-idb generated client engine
(`packages/usage/src/prisma/prisma-idb/prisma-idb-client.ts`) against its
specification.

The embedding models the per-entity engines for the schema
(`schema.prisma`): `User`, `Profile`, `Post`, `Comment`.  IndexedDB object
stores are modelled as lists of records (one store per entity, keyed by the
`id` field); a transaction is modelled as a state carrying the store
contents, an `aborted` flag (set by `tx.abort()`), the list of events
dispatched through `BaseIDBModelClass.emit`, and the external cuid
generator used by `Comment._fillDefaults`.

The bodies of the shared `idb-utils` helpers (`whereStringFilter`,
`whereNumberFilter`, `handleStringUpdateField`, `handleIntUpdateField`,
`applyLogicalFilters`, `genericComparator`) are not part of the source
tree; wherever they are needed they are modelled from the specification
and marked `Modelled from the spec:` in their doc comments.  The where /
orderBy clause languages are embedded as the fragment of query shapes that
the claims exercise; each embedded operation is a line-by-line translation
of the corresponding generated method for that fragment.
-/

deriving instance DecidableEq for Except

/-- The object-store names created by `PrismaIDBClient.initialize`. -/
inductive StoreName where
  | User | Profile | Post | Comment | AllFieldScalarTypes
  deriving DecidableEq, Repr

/-- Event kinds of the notification interface (`BaseIDBModelClass`). -/
inductive EventKind where
  | create | update | delete
  deriving DecidableEq, Repr

/-- Errors thrown by the engine: `new Error("Record not found")` and
`new Error("connectOrCreate not yet implemented")`.  `fuelExhausted` is an
artifact of the fuel-based embedding of the mutually recursive nested-write
orchestration; it is never produced when enough fuel is supplied. -/
inductive Err where
  | notFound
  | unsupported
  | fuelExhausted
  deriving DecidableEq, Repr

/-- `asc` / `desc` of `Prisma.SortOrder`. -/
inductive SortOrder where
  | asc | desc
  deriving DecidableEq, Repr

/-! ### Scalar comparators

Modelled from the spec: `genericComparator` (idb-utils) compares two
resolved sort keys; §4.3 "stable sort comparing clause-by-clause in listed
order, using each clause's declared direction". -/

/-- Three-way comparison of JS numbers (embedded as `Int`). -/
def intCmp (a b : Int) : Ordering :=
  if a < b then .lt else if b < a then .gt else .eq

/-- Three-way comparison of characters by code point. -/
def charCmp (a b : Char) : Ordering :=
  if a.val.toNat < b.val.toNat then .lt
  else if b.val.toNat < a.val.toNat then .gt
  else .eq

/-- Lexicographic three-way comparison of character lists. -/
def chListCmp : List Char → List Char → Ordering
  | [], [] => .eq
  | [], _ :: _ => .lt
  | _ :: _, [] => .gt
  | a :: as, b :: bs =>
    match charCmp a b with
    | .eq => chListCmp as bs
    | o => o

/-- Three-way comparison of JS strings. -/
def strCmp (a b : String) : Ordering := chListCmp a.data b.data

theorem intCmp_eq_iff (a b : Int) : intCmp a b = .eq ↔ a = b := by
  unfold intCmp
  split <;> rename_i h
  · simp; omega
  · split <;> rename_i h2 <;> simp <;> omega

theorem intCmp_swap (a b : Int) : (intCmp a b).swap = intCmp b a := by
  unfold intCmp
  by_cases hab : a < b <;> by_cases hba : b < a <;>
    simp [hab, hba, Ordering.swap] <;> omega

theorem intCmp_le_trans (a b c : Int) (h1 : intCmp a b ≠ .gt) (h2 : intCmp b c ≠ .gt) :
    intCmp a c ≠ .gt := by
  unfold intCmp at *
  split at h1 <;> split at h2 <;> simp_all <;> omega

theorem charCmp_eq_iff (a b : Char) : charCmp a b = .eq ↔ a = b := by
  unfold charCmp
  constructor
  · intro h
    split at h
    · simp_all
    · split at h
      · simp_all
      · have hn : a.val.toNat = b.val.toNat := by omega
        exact Char.ext (UInt32.toNat.inj hn)
  · intro h; subst h; simp

theorem charCmp_self (a : Char) : charCmp a a = .eq := (charCmp_eq_iff a a).mpr rfl

theorem charCmp_swap (a b : Char) : (charCmp a b).swap = charCmp b a := by
  unfold charCmp
  by_cases hab : a.val.toNat < b.val.toNat <;> by_cases hba : b.val.toNat < a.val.toNat <;>
    simp [hab, hba, Ordering.swap] <;> omega

theorem charCmp_lt_trans (a b c : Char) (h1 : charCmp a b = .lt) (h2 : charCmp b c = .lt) :
    charCmp a c = .lt := by
  unfold charCmp at *
  split at h1 <;> split at h2 <;> simp_all <;> omega

theorem chListCmp_eq_iff (a b : List Char) : chListCmp a b = .eq ↔ a = b := by
  induction a generalizing b with
  | nil => cases b <;> simp [chListCmp]
  | cons x xs ih =>
    cases b with
    | nil => simp [chListCmp]
    | cons y ys =>
      simp only [chListCmp]
      cases hxy : charCmp x y with
      | lt =>
        constructor
        · intro h; cases h
        · intro h
          rw [List.cons.injEq] at h
          have he := (charCmp_eq_iff x y).mpr h.1
          rw [hxy] at he; cases he
      | eq =>
        have hx : x = y := (charCmp_eq_iff x y).mp hxy
        subst hx
        simp only [List.cons.injEq, true_and]
        exact ih ys
      | gt =>
        constructor
        · intro h; cases h
        · intro h
          rw [List.cons.injEq] at h
          have he := (charCmp_eq_iff x y).mpr h.1
          rw [hxy] at he; cases he

theorem chListCmp_swap (a b : List Char) : (chListCmp a b).swap = chListCmp b a := by
  induction a generalizing b with
  | nil => cases b <;> rfl
  | cons x xs ih =>
    cases b with
    | nil => rfl
    | cons y ys =>
      simp only [chListCmp]
      cases hxy : charCmp x y with
      | lt =>
        rw [← charCmp_swap x y, hxy]; rfl
      | eq =>
        rw [← charCmp_swap x y, hxy]
        exact ih ys
      | gt =>
        rw [← charCmp_swap x y, hxy]; rfl

theorem chListCmp_le_trans (a b c : List Char)
    (h1 : chListCmp a b ≠ .gt) (h2 : chListCmp b c ≠ .gt) : chListCmp a c ≠ .gt := by
  induction a generalizing b c with
  | nil => cases c <;> simp [chListCmp]
  | cons x xs ih =>
    cases b with
    | nil => simp [chListCmp] at h1
    | cons y ys =>
      cases c with
      | nil => simp [chListCmp] at h2
      | cons z zs =>
        simp only [chListCmp] at h1 h2 ⊢
        cases hxy : charCmp x y <;> rw [hxy] at h1 <;>
          cases hyz : charCmp y z <;> rw [hyz] at h2
        · rw [charCmp_lt_trans x y z hxy hyz]; simp
        · have hy : y = z := (charCmp_eq_iff y z).mp hyz
          subst hy; rw [hxy]; simp
        · exact absurd rfl h2
        · have hx : x = y := (charCmp_eq_iff x y).mp hxy
          subst hx; rw [hyz]; simp
        · have hx : x = y := (charCmp_eq_iff x y).mp hxy
          subst hx
          have hy : x = z := (charCmp_eq_iff x z).mp hyz
          subst hy
          rw [charCmp_self]
          exact ih ys zs h1 h2
        · have hx : x = y := (charCmp_eq_iff x y).mp hxy
          subst hx
          exact absurd rfl h2
        · exact absurd rfl h1
        · exact absurd rfl h1
        · exact absurd rfl h1

theorem strCmp_eq_iff (a b : String) : strCmp a b = .eq ↔ a = b := by
  unfold strCmp
  rw [chListCmp_eq_iff]
  constructor
  · intro h; cases a; cases b; simp_all
  · intro h; subst h; rfl

theorem strCmp_swap (a b : String) : (strCmp a b).swap = strCmp b a :=
  chListCmp_swap a.data b.data

theorem strCmp_le_trans (a b c : String)
    (h1 : strCmp a b ≠ .gt) (h2 : strCmp b c ≠ .gt) : strCmp a c ≠ .gt :=
  chListCmp_le_trans a.data b.data c.data h1 h2

/-! ### Records and stores -/

/-- A persisted `User` row (`model User`): scalar and foreign-key fields
only; relation fields are attached at read time and never persisted. -/
structure UserRecord where
  id : Int
  name : String
  deriving DecidableEq, Repr

/-- A persisted `Profile` row (`model Profile`): `bio` is optional. -/
structure ProfileRecord where
  id : Int
  bio : Option String
  userId : Int
  deriving DecidableEq, Repr

/-- A persisted `Post` row (`model Post`): `authorId` is nullable, and the
scalar-list fields may be absent on the stored object (the source leaves
`tags` / `numberArr` `undefined` when not supplied; `_preprocessListFields`
replaces the absent value by `[]` on every read). -/
structure PostRecord where
  id : Int
  title : String
  authorId : Option Int
  tags : Option (List String)
  numberArr : Option (List Int)
  deriving DecidableEq, Repr

/-- A persisted `Comment` row (`model Comment`): string (cuid) primary key. -/
structure CommentRecord where
  id : String
  postId : Int
  userId : Int
  text : String
  deriving DecidableEq, Repr

/-- The contents of the IndexedDB database: one object store per entity.
List order stands for the store's key order; the claims proved below only
depend on membership, counts and emptiness of store contents.
(`AllFieldScalarTypes` is not needed by any claim and is omitted.) -/
structure DB where
  user : List UserRecord
  profile : List ProfileRecord
  post : List PostRecord
  comment : List CommentRecord
  deriving DecidableEq, Repr

/-- The state threaded through one transaction: the store contents, the
`aborted` flag (`tx.abort()`), the events dispatched via
`BaseIDBModelClass.emit` (a pair of entity store and event kind), and the
external `createId` cuid generator with its consumption index. -/
structure TxState where
  db : DB
  aborted : Bool
  events : List (StoreName × EventKind)
  gen : Nat → String
  genIdx : Nat

/-- The engine monad: explicit state passing plus exceptions.  A thrown JS
error leaves all writes performed so far in place (IndexedDB only rolls
back on `tx.abort()`), which is why the state is returned even on error. -/
def EngineM (α : Type) : Type := TxState → TxState × Except Err α

def bindE {α β : Type} (m : EngineM α) (f : α → EngineM β) : EngineM β := fun tx =>
  match m tx with
  | (tx', .ok a) => f a tx'
  | (tx', .error e) => (tx', .error e)

def pureE {α : Type} (a : α) : EngineM α := fun tx => (tx, .ok a)

instance : Bind EngineM := ⟨fun m f => bindE m f⟩
instance : Pure EngineM := ⟨fun a => pureE a⟩

/-- Read the database (store contents) from the transaction. -/
def getDb : EngineM DB := fun tx => (tx, .ok tx.db)

/-- Apply a write to the store contents. -/
def modifyDb (f : DB → DB) : EngineM Unit := fun tx =>
  ({ tx with db := f tx.db }, .ok ())

/-- `throw new Error(...)`: propagate without touching the transaction. -/
def throwE {α : Type} (e : Err) : EngineM α := fun tx => (tx, .error e)

/-- `tx.abort(); throw new Error(...)`: set the aborted flag, then throw. -/
def abortThrowE {α : Type} (e : Err) : EngineM α := fun tx =>
  ({ tx with aborted := true }, .error e)

/-- The external `createId()` of `@paralleldrive/cuid2`, modelled as an
opaque stream of identifiers carried by the transaction state. -/
def nextCuid : EngineM String := fun tx =>
  ({ tx with genIdx := tx.genIdx + 1 }, .ok (tx.gen tx.genIdx))

/-- Commit semantics of a top-level call operating on a fresh transaction:
if the transaction was aborted every write is rolled back, otherwise the
writes commit (IndexedDB transactions auto-commit; an uncaught JS
exception alone does not abort them). -/
def commitRun {α : Type} (m : EngineM α) (db0 : DB) (gen : Nat → String) :
    DB × Except Err α :=
  match m ⟨db0, false, [], gen, 0⟩ with
  | (tx', r) => (if tx'.aborted then db0 else tx'.db, r)

/-! ### Scalar where-filters

Modelled from the spec: §4.1 "Scalar filters are type-specific: string
(equals, ..., negation), number/datetime (equals, ..., negation), ...";
the underlying `whereStringFilter` / `whereNumberFilter` helpers live in
the generated `idb-utils.ts`, which is not part of the source tree.  The
embedded filter language covers the shapes the engine methods construct
themselves (`field: value` equality, `field: null`, `{ not: null }`). -/

/-- Number-filter fragment: direct value (equality), `null`, `{not: null}`. -/
inductive NumFilter where
  | eqv (v : Int)
  | eqNull
  | notNull
  deriving DecidableEq, Repr

/-- Modelled from the spec: `whereNumberFilter` on an (optional) numeric
field; an absent filter matches every record. -/
def numFilterMatches (field : Option Int) : Option NumFilter → Bool
  | none => true
  | some (.eqv v) => field = some v
  | some .eqNull => field = none
  | some .notNull => field ≠ none

/-- String-filter fragment: direct value (equality), `null`, `{not: null}`. -/
inductive StrFilter where
  | eqv (v : String)
  | eqNull
  | notNull
  deriving DecidableEq, Repr

/-- Modelled from the spec: `whereStringFilter` on an (optional) string
field; an absent filter matches every record. -/
def strFilterMatches (field : Option String) : Option StrFilter → Bool
  | none => true
  | some (.eqv v) => field = some v
  | some .eqNull => field = none
  | some .notNull => field ≠ none

/-! ### Where-clause trees

The embedded where language is the fragment of query shapes exercised by
the engine itself and by the claims: logical combinators `AND`/`OR`/`NOT`
(arrays of sub-clauses; a single object is `convertToArray`-wrapped by the
source), scalar filters on the entity's fields, and — on `User` — the
to-many quantifiers `every`/`some`/`none` over `posts` and `comments`.
Relation filters that the claims do not exercise (`author`, `post`,
`user`, `profile`, nested to-one `is`/`isNot`) are outside the fragment.
Sub-clause lists are a bespoke list type so that the evaluators are
mutually structurally recursive (and hence kernel-computable). -/

mutual
inductive PostWhere where
  | node (ands ors nots : PostWhereList) (id : Option NumFilter)
      (title : Option StrFilter) (authorId : Option NumFilter)
  deriving DecidableEq
inductive PostWhereList where
  | nil
  | cons (w : PostWhere) (t : PostWhereList)
  deriving DecidableEq
end

mutual
/-- Per-record predicate of `PostIDBClass._applyWhereClause` on the
embedded fragment: logical filters first (`IDBUtils.applyLogicalFilters`,
modelled from the spec: AND = all sub-clauses, OR = at least one, NOT =
none of the sub-clauses), then the scalar field filters in source order
(`title`, then `id`, `authorId`).  `_applyWhereClause` itself filters a
record list with this predicate, preserving order. -/
def postWhereMatches : PostWhere → PostRecord → Bool
  | .node ands ors nots wid wtitle wauthor, r =>
    postWhereAllMatch ands r &&
    (match ors with | .nil => true | _ => postWhereAnyMatch ors r) &&
    postWhereNoneMatch nots r &&
    strFilterMatches (some r.title) wtitle &&
    numFilterMatches (some r.id) wid &&
    numFilterMatches r.authorId wauthor
def postWhereAllMatch : PostWhereList → PostRecord → Bool
  | .nil, _ => true
  | .cons w t, r => postWhereMatches w r && postWhereAllMatch t r
def postWhereAnyMatch : PostWhereList → PostRecord → Bool
  | .nil, _ => false
  | .cons w t, r => postWhereMatches w r || postWhereAnyMatch t r
def postWhereNoneMatch : PostWhereList → PostRecord → Bool
  | .nil, _ => true
  | .cons w t, r => !postWhereMatches w r && postWhereNoneMatch t r
end

mutual
inductive CommentWhere where
  | node (ands ors nots : CommentWhereList) (id : Option StrFilter)
      (text : Option StrFilter) (postId userId : Option NumFilter)
  deriving DecidableEq
inductive CommentWhereList where
  | nil
  | cons (w : CommentWhere) (t : CommentWhereList)
  deriving DecidableEq
end

mutual
/-- Per-record predicate of `CommentIDBClass._applyWhereClause` on the
embedded fragment (string fields `id`, `text`, then number fields
`postId`, `userId`). -/
def commentWhereMatches : CommentWhere → CommentRecord → Bool
  | .node ands ors nots wid wtext wpost wuser, r =>
    commentWhereAllMatch ands r &&
    (match ors with | .nil => true | _ => commentWhereAnyMatch ors r) &&
    commentWhereNoneMatch nots r &&
    strFilterMatches (some r.id) wid &&
    strFilterMatches (some r.text) wtext &&
    numFilterMatches (some r.postId) wpost &&
    numFilterMatches (some r.userId) wuser
def commentWhereAllMatch : CommentWhereList → CommentRecord → Bool
  | .nil, _ => true
  | .cons w t, r => commentWhereMatches w r && commentWhereAllMatch t r
def commentWhereAnyMatch : CommentWhereList → CommentRecord → Bool
  | .nil, _ => false
  | .cons w t, r => commentWhereMatches w r || commentWhereAnyMatch t r
def commentWhereNoneMatch : CommentWhereList → CommentRecord → Bool
  | .nil, _ => true
  | .cons w t, r => !commentWhereMatches w r && commentWhereNoneMatch t r
end

mutual
inductive ProfileWhere where
  | node (ands ors nots : ProfileWhereList) (id userId : Option NumFilter)
      (bio : Option StrFilter)
  deriving DecidableEq
inductive ProfileWhereList where
  | nil
  | cons (w : ProfileWhere) (t : ProfileWhereList)
  deriving DecidableEq
end

mutual
/-- Per-record predicate of `ProfileIDBClass._applyWhereClause` on the
embedded fragment (string field `bio`, then number fields `id`, `userId`). -/
def profileWhereMatches : ProfileWhere → ProfileRecord → Bool
  | .node ands ors nots wid wuser wbio, r =>
    profileWhereAllMatch ands r &&
    (match ors with | .nil => true | _ => profileWhereAnyMatch ors r) &&
    profileWhereNoneMatch nots r &&
    strFilterMatches r.bio wbio &&
    numFilterMatches (some r.id) wid &&
    numFilterMatches (some r.userId) wuser
def profileWhereAllMatch : ProfileWhereList → ProfileRecord → Bool
  | .nil, _ => true
  | .cons w t, r => profileWhereMatches w r && profileWhereAllMatch t r
def profileWhereAnyMatch : ProfileWhereList → ProfileRecord → Bool
  | .nil, _ => false
  | .cons w t, r => profileWhereMatches w r || profileWhereAnyMatch t r
def profileWhereNoneMatch : ProfileWhereList → ProfileRecord → Bool
  | .nil, _ => true
  | .cons w t, r => !profileWhereMatches w r && profileWhereNoneMatch t r
end

/-! ### Post / Comment / Profile find pipeline

`findMany` opens (or reuses) a transaction, filters `getAll()` through
`_applyWhereClause`, sorts through `_applyOrderByClause` (identity when no
`orderBy` is supplied — queries with `orderBy` on these entities are
outside the embedded fragment), attaches relations (`_applyRelations`,
identity without `select`/`include`), projects (`_applySelectClause`,
identity without `select`) and post-processes list fields. -/

structure PostFindQuery where
  whereQ : Option PostWhere
  deriving DecidableEq

/-- `PostIDBClass._applyWhereClause` as a list transformer
(`if (!whereClause) return records`, else order-preserving filter). -/
def postApplyWhereClause (records : List PostRecord) : Option PostWhere → List PostRecord
  | none => records
  | some w => records.filter (fun r => postWhereMatches w r)

/-- `PostIDBClass._preprocessListFields`: replace absent scalar-list
fields by `[]` on the returned records. -/
def postPreprocessListFields (r : PostRecord) : PostRecord :=
  { r with tags := some (r.tags.getD []), numberArr := some (r.numberArr.getD []) }

def postFindMany (db : DB) (q : PostFindQuery) : List PostRecord :=
  (postApplyWhereClause db.post q.whereQ).map postPreprocessListFields

def postFindFirst (db : DB) (q : PostFindQuery) : Option PostRecord :=
  (postFindMany db q).head?

structure CommentFindQuery where
  whereQ : Option CommentWhere
  deriving DecidableEq

def commentApplyWhereClause (records : List CommentRecord) :
    Option CommentWhere → List CommentRecord
  | none => records
  | some w => records.filter (fun r => commentWhereMatches w r)

def commentFindMany (db : DB) (q : CommentFindQuery) : List CommentRecord :=
  commentApplyWhereClause db.comment q.whereQ

def commentFindFirst (db : DB) (q : CommentFindQuery) : Option CommentRecord :=
  (commentFindMany db q).head?

structure ProfileFindQuery where
  whereQ : Option ProfileWhere
  deriving DecidableEq

def profileApplyWhereClause (records : List ProfileRecord) :
    Option ProfileWhere → List ProfileRecord
  | none => records
  | some w => records.filter (fun r => profileWhereMatches w r)

def profileFindMany (db : DB) (q : ProfileFindQuery) : List ProfileRecord :=
  profileApplyWhereClause db.profile q.whereQ

def profileFindFirst (db : DB) (q : ProfileFindQuery) : Option ProfileRecord :=
  (profileFindMany db q).head?

/-! ### User where clause (with to-many quantifiers) -/

/-- The `posts: { every / some / none }` quantifier object of a `User`
where clause. -/
structure PostQuant where
  everyQ : Option PostWhere
  someQ : Option PostWhere
  noneQ : Option PostWhere
  deriving DecidableEq

/-- The `comments: { every / some / none }` quantifier object. -/
structure CommentQuant where
  everyQ : Option CommentWhere
  someQ : Option CommentWhere
  noneQ : Option CommentWhere
  deriving DecidableEq

mutual
inductive UserWhere where
  | node (ands ors nots : UserWhereList) (id : Option NumFilter)
      (name : Option StrFilter) (posts : Option PostQuant)
      (comments : Option CommentQuant)
  deriving DecidableEq
inductive UserWhereList where
  | nil
  | cons (w : UserWhere) (t : UserWhereList)
  deriving DecidableEq
end

/-- The spread `{ ...clause, authorId: record.id }` used by the `some` and
`none` quantifier sub-queries of `UserIDBClass._applyWhereClause`
(overwrites the `authorId` field of the clause object). -/
def postWhereWithAuthorId (w : PostWhere) (f : NumFilter) : PostWhere :=
  match w with
  | .node ands ors nots wid wtitle _ => .node ands ors nots wid wtitle (some f)

/-- The object `{ NOT: { ...clause }, authorId: record.id }` built by the
`every` quantifier sub-query (a fresh clause whose `NOT` holds the spread
copy of the sub-clause). -/
def postWhereNotWithAuthorId (w : PostWhere) (f : NumFilter) : PostWhere :=
  .node .nil .nil (.cons w .nil) none none (some f)

/-- `{ ...clause, userId: record.id }` for the `comments` quantifiers. -/
def commentWhereWithUserId (w : CommentWhere) (f : NumFilter) : CommentWhere :=
  match w with
  | .node ands ors nots wid wtext wpost _ => .node ands ors nots wid wtext wpost (some f)

/-- `{ NOT: { ...clause }, userId: record.id }` for the `comments.every`
quantifier. -/
def commentWhereNotWithUserId (w : CommentWhere) (f : NumFilter) : CommentWhere :=
  .node .nil .nil (.cons w .nil) none none none (some f)

mutual
/-- Per-record predicate of `UserIDBClass._applyWhereClause` on the
embedded fragment: logical filters, scalar fields (`name`, then `id`),
then the `posts` and `comments` to-many quantifiers, each evaluated as a
scoped sub-query over the child table (`findFirst` for `every`/`none`,
`findMany` for `some`) with the child's foreign key constrained to the
parent's `id`.  The sub-queries run against the same store snapshot. -/
def userWhereMatches (db : DB) : UserWhere → UserRecord → Bool
  | .node ands ors nots wid wname wposts wcomments, r =>
    userWhereAllMatch db ands r &&
    (match ors with | .nil => true | _ => userWhereAnyMatch db ors r) &&
    userWhereNoneMatch db nots r &&
    strFilterMatches (some r.name) wname &&
    numFilterMatches (some r.id) wid &&
    (match wposts with
     | none => true
     | some q =>
       (match q.everyQ with
        | none => true
        | some e =>
          (postFindFirst db ⟨some (postWhereNotWithAuthorId e (.eqv r.id))⟩).isNone) &&
       (match q.someQ with
        | none => true
        | some s =>
          !(postFindMany db ⟨some (postWhereWithAuthorId s (.eqv r.id))⟩).isEmpty) &&
       (match q.noneQ with
        | none => true
        | some n =>
          (postFindFirst db ⟨some (postWhereWithAuthorId n (.eqv r.id))⟩).isNone)) &&
    (match wcomments with
     | none => true
     | some q =>
       (match q.everyQ with
        | none => true
        | some e =>
          (commentFindFirst db ⟨some (commentWhereNotWithUserId e (.eqv r.id))⟩).isNone) &&
       (match q.someQ with
        | none => true
        | some s =>
          !(commentFindMany db ⟨some (commentWhereWithUserId s (.eqv r.id))⟩).isEmpty) &&
       (match q.noneQ with
        | none => true
        | some n =>
          (commentFindFirst db ⟨some (commentWhereWithUserId n (.eqv r.id))⟩).isNone))
def userWhereAllMatch (db : DB) : UserWhereList → UserRecord → Bool
  | .nil, _ => true
  | .cons w t, r => userWhereMatches db w r && userWhereAllMatch db t r
def userWhereAnyMatch (db : DB) : UserWhereList → UserRecord → Bool
  | .nil, _ => false
  | .cons w t, r => userWhereMatches db w r || userWhereAnyMatch db t r
def userWhereNoneMatch (db : DB) : UserWhereList → UserRecord → Bool
  | .nil, _ => true
  | .cons w t, r => !userWhereMatches db w r && userWhereNoneMatch db t r
end

/-! ### Order resolver -/

theorem intCmp_lt_trans (a b c : Int) (h1 : intCmp a b = .lt) (h2 : intCmp b c = .lt) :
    intCmp a c = .lt := by
  unfold intCmp at *
  split at h1 <;> split at h2 <;> simp_all <;> omega

theorem chListCmp_lt_trans (a b c : List Char)
    (h1 : chListCmp a b = .lt) (h2 : chListCmp b c = .lt) : chListCmp a c = .lt := by
  induction a generalizing b c with
  | nil =>
    cases b with
    | nil => exact h2
    | cons y ys => cases c with
      | nil => simp [chListCmp] at h2
      | cons z zs => simp [chListCmp]
  | cons x xs ih =>
    cases b with
    | nil => simp [chListCmp] at h1
    | cons y ys =>
      cases c with
      | nil => simp [chListCmp] at h2
      | cons z zs =>
        simp only [chListCmp] at h1 h2 ⊢
        cases hxy : charCmp x y <;> rw [hxy] at h1 <;>
          cases hyz : charCmp y z <;> rw [hyz] at h2
        · rw [charCmp_lt_trans x y z hxy hyz]
        · have hy : y = z := (charCmp_eq_iff y z).mp hyz
          subst hy; rw [hxy]
        · cases h2
        · have hx : x = y := (charCmp_eq_iff x y).mp hxy
          subst hx; rw [hyz]
        · have hx : x = y := (charCmp_eq_iff x y).mp hxy
          subst hx
          have hy : x = z := (charCmp_eq_iff x z).mp hyz
          subst hy
          rw [charCmp_self]
          exact ih ys zs h1 h2
        · cases h2
        · cases h1
        · cases h1
        · cases h1

theorem strCmp_lt_trans (a b c : String)
    (h1 : strCmp a b = .lt) (h2 : strCmp b c = .lt) : strCmp a c = .lt :=
  chListCmp_lt_trans a.data b.data c.data h1 h2

/-- A resolved sort key (`_resolveOrderByKey` result): a number, a string,
or `null`/`undefined` (absent value or relation-derived clause outside the
embedded fragment). -/
inductive KeyVal where
  | null
  | int (i : Int)
  | str (s : String)
  deriving DecidableEq, Repr

/-- Modelled from the spec: the key comparison inside `genericComparator`
(§4.3).  Keys produced for one clause always share a constructor, so the
cross-constructor ordering (null < number < string) is never exercised by
the theorems below; it only makes the comparator total. -/
def keyValCompare : KeyVal → KeyVal → Ordering
  | .null, .null => .eq
  | .null, _ => .lt
  | _, .null => .gt
  | .int a, .int b => intCmp a b
  | .int _, .str _ => .lt
  | .str _, .int _ => .gt
  | .str a, .str b => strCmp a b

theorem keyValCompare_eq_iff (x y : KeyVal) : keyValCompare x y = .eq ↔ x = y := by
  cases x <;> cases y <;> simp [keyValCompare, intCmp_eq_iff, strCmp_eq_iff]

theorem keyValCompare_self (x : KeyVal) : keyValCompare x x = .eq :=
  (keyValCompare_eq_iff x x).mpr rfl

theorem keyValCompare_swap (x y : KeyVal) : (keyValCompare x y).swap = keyValCompare y x := by
  cases x <;> cases y <;> simp [keyValCompare, intCmp_swap, strCmp_swap] <;> rfl

theorem keyValCompare_lt_trans (x y z : KeyVal)
    (h1 : keyValCompare x y = .lt) (h2 : keyValCompare y z = .lt) :
    keyValCompare x z = .lt := by
  cases x <;> cases y <;> cases z <;> simp_all [keyValCompare]
  · exact intCmp_lt_trans _ _ _ h1 h2
  · exact strCmp_lt_trans _ _ _ h1 h2

/-- Modelled from the spec: `genericComparator(aKey, bKey, direction)` —
the direction (`asc`/`desc`) decides the sign of the key comparison. -/
def genericComparator (x y : KeyVal) : SortOrder → Ordering
  | .asc => keyValCompare x y
  | .desc => (keyValCompare x y).swap

theorem genericComparator_swap (x y : KeyVal) (d : SortOrder) :
    (genericComparator x y d).swap = genericComparator y x d := by
  cases d <;> simp only [genericComparator]
  · exact keyValCompare_swap x y
  · rw [Ordering.swap_swap, ← keyValCompare_swap y x]

theorem genericComparator_eq_iff (x y : KeyVal) (d : SortOrder) :
    genericComparator x y d = .eq ↔ x = y := by
  cases d <;> simp only [genericComparator]
  · exact keyValCompare_eq_iff x y
  · rw [← keyValCompare_eq_iff x y]
    cases keyValCompare x y <;> simp [Ordering.swap]

theorem genericComparator_lt_trans (x y z : KeyVal) (d : SortOrder)
    (h1 : genericComparator x y d = .lt) (h2 : genericComparator y z d = .lt) :
    genericComparator x z d = .lt := by
  cases d <;> simp only [genericComparator] at *
  · exact keyValCompare_lt_trans x y z h1 h2
  · rw [keyValCompare_swap] at h1 h2 ⊢
    exact keyValCompare_lt_trans z y x h2 h1

/-- One `orderBy` clause on `User` in the embedded fragment: a direction
on the scalar field `id` or `name` (`Prisma.UserOrderByWithRelationInput`
restricted to scalar keys; relation-derived keys issue sub-queries in the
source and are outside the fragment). -/
structure UserOrderClause where
  id : Option SortOrder
  name : Option SortOrder
  deriving DecidableEq, Repr

/-- `UserIDBClass._resolveOrderByKey` on the embedded fragment: fields are
tested in source order (`id`, then `name`); with no field set the source
returns `undefined`, modelled as `KeyVal.null`. -/
def userResolveOrderByKey (r : UserRecord) (c : UserOrderClause) : KeyVal :=
  match c.id with
  | some _ => .int r.id
  | none =>
    match c.name with
    | some _ => .str r.name
    | none => .null

/-- `UserIDBClass._resolveSortOrder`: the direction attached to the clause
(the source throws `"No field in orderBy clause"` when no field is set;
that case is modelled as `none`). -/
def userResolveSortOrder (c : UserOrderClause) : Option SortOrder :=
  match c.id with
  | some o => some o
  | none =>
    match c.name with
    | some o => some o
    | none => none

/-- The composite comparator of `_applyOrderByClause`: compare
clause-by-clause in listed order; the first non-`eq` comparison decides.
For a clause with no field the source would have thrown already; `asc` is
substituted so the comparator stays total (the theorems below only use
well-formed clauses). -/
def userCmpClauses (cs : List UserOrderClause) (a b : UserRecord) : Ordering :=
  match cs with
  | [] => .eq
  | c :: rest =>
    match genericComparator (userResolveOrderByKey a c) (userResolveOrderByKey b c)
        ((userResolveSortOrder c).getD .asc) with
    | .eq => userCmpClauses rest a b
    | o => o

theorem userCmpClauses_swap (cs : List UserOrderClause) (a b : UserRecord) :
    (userCmpClauses cs a b).swap = userCmpClauses cs b a := by
  induction cs with
  | nil => rfl
  | cons c rest ih =>
    simp only [userCmpClauses]
    cases hab : genericComparator (userResolveOrderByKey a c) (userResolveOrderByKey b c)
        ((userResolveSortOrder c).getD .asc) <;>
      rw [← genericComparator_swap, hab]
    · rfl
    · exact ih
    · rfl

theorem userCmpClauses_lt_trans (cs : List UserOrderClause) (a b c : UserRecord)
    (h1 : userCmpClauses cs a b = .lt) (h2 : userCmpClauses cs b c = .lt) :
    userCmpClauses cs a c = .lt := by
  induction cs with
  | nil => cases h1
  | cons cl rest ih =>
    simp only [userCmpClauses] at h1 h2 ⊢
    cases hab : genericComparator (userResolveOrderByKey a cl) (userResolveOrderByKey b cl)
        ((userResolveSortOrder cl).getD .asc) <;> rw [hab] at h1 <;>
      cases hbc : genericComparator (userResolveOrderByKey b cl) (userResolveOrderByKey c cl)
        ((userResolveSortOrder cl).getD .asc) <;> rw [hbc] at h2
    · rw [genericComparator_lt_trans _ _ _ _ hab hbc]
    · have hk := (genericComparator_eq_iff _ _ _).mp hbc
      rw [← hk, hab]
    · cases h2
    · have hk := (genericComparator_eq_iff _ _ _).mp hab
      rw [hk, hbc]
    · have hk := (genericComparator_eq_iff _ _ _).mp hab
      have hk2 := (genericComparator_eq_iff _ _ _).mp hbc
      rw [hk, hk2, (genericComparator_eq_iff _ _ _).mpr rfl]
      exact ih h1 h2
    · cases h2
    · cases h1
    · cases h1
    · cases h1

/-- When two records compare `eq` under every clause, their resolved keys
agree, so either may replace the other on the left of the comparator. -/
theorem userCmpClauses_eq_congr (cs : List UserOrderClause) (a b : UserRecord)
    (h : userCmpClauses cs a b = .eq) (z : UserRecord) :
    userCmpClauses cs a z = userCmpClauses cs b z := by
  induction cs with
  | nil => rfl
  | cons c rest ih =>
    simp only [userCmpClauses] at h ⊢
    cases hab : genericComparator (userResolveOrderByKey a c) (userResolveOrderByKey b c)
        ((userResolveSortOrder c).getD .asc) <;> rw [hab] at h
    · cases h
    · have hk := (genericComparator_eq_iff _ _ _).mp hab
      rw [hk, ih h]
    · cases h

theorem userCmpClauses_eq_congr_right (cs : List UserOrderClause) (a b : UserRecord)
    (h : userCmpClauses cs a b = .eq) (z : UserRecord) :
    userCmpClauses cs z a = userCmpClauses cs z b := by
  rw [← userCmpClauses_swap cs a z, ← userCmpClauses_swap cs b z,
    userCmpClauses_eq_congr cs a b h z]

theorem userCmpClauses_le_trans (cs : List UserOrderClause) (a b c : UserRecord)
    (h1 : userCmpClauses cs a b ≠ .gt) (h2 : userCmpClauses cs b c ≠ .gt) :
    userCmpClauses cs a c ≠ .gt := by
  cases hab : userCmpClauses cs a b with
  | gt => exact absurd hab h1
  | eq => rw [userCmpClauses_eq_congr cs a b hab c]; exact h2
  | lt =>
    cases hbc : userCmpClauses cs b c with
    | gt => exact absurd hbc h2
    | eq => rw [← userCmpClauses_eq_congr_right cs b c hbc a, hab]; simp
    | lt => rw [userCmpClauses_lt_trans cs a b c hab hbc]; simp

/-! ### Stable sort

`_applyOrderByClause` precomputes one key per clause per record and sorts
with JavaScript's `Array.prototype.sort`, which is a stable sort
(ECMAScript 2019).  For a comparator that is a consistent total preorder a
stable sort's output is uniquely determined, so the embedding uses stable
insertion sort. -/

def orderedInsertBy {α : Type} (le : α → α → Bool) (a : α) : List α → List α
  | [] => [a]
  | b :: t => if le a b then a :: b :: t else b :: orderedInsertBy le a t

def insertionSortBy {α : Type} (le : α → α → Bool) : List α → List α
  | [] => []
  | a :: t => orderedInsertBy le a (insertionSortBy le t)

theorem orderedInsertBy_perm {α : Type} (le : α → α → Bool) (a : α) (l : List α) :
    (orderedInsertBy le a l).Perm (a :: l) := by
  induction l with
  | nil => simp [orderedInsertBy]
  | cons b t ih =>
    simp only [orderedInsertBy]
    split
    · exact List.Perm.refl _
    · exact (ih.cons b).trans (List.Perm.swap a b t)

theorem insertionSortBy_perm {α : Type} (le : α → α → Bool) (l : List α) :
    (insertionSortBy le l).Perm l := by
  induction l with
  | nil => simp [insertionSortBy]
  | cons a t ih =>
    exact (orderedInsertBy_perm le a (insertionSortBy le t)).trans (ih.cons a)

theorem mem_orderedInsertBy {α : Type} (le : α → α → Bool) (a x : α) (l : List α) :
    x ∈ orderedInsertBy le a l ↔ x = a ∨ x ∈ l := by
  rw [(orderedInsertBy_perm le a l).mem_iff, List.mem_cons]

theorem pairwise_orderedInsertBy {α : Type} (le : α → α → Bool)
    (htot : ∀ x y, le x y = true ∨ le y x = true)
    (htrans : ∀ x y z, le x y = true → le y z = true → le x z = true)
    (a : α) (l : List α) (h : l.Pairwise (fun x y => le x y = true)) :
    (orderedInsertBy le a l).Pairwise (fun x y => le x y = true) := by
  induction l with
  | nil => simp [orderedInsertBy]
  | cons b t ih =>
    rw [List.pairwise_cons] at h
    simp only [orderedInsertBy]
    split
    · rename_i hab
      rw [List.pairwise_cons]
      constructor
      · intro y hy
        rcases List.mem_cons.mp hy with hy | hy
        · subst hy; exact hab
        · exact htrans a b y hab (h.1 y hy)
      · rw [List.pairwise_cons]
        exact h
    · rename_i hab
      have hba : le b a = true := by
        rcases htot a b with hx | hx
        · exact absurd hx hab
        · exact hx
      rw [List.pairwise_cons]
      constructor
      · intro y hy
        rcases (mem_orderedInsertBy le a y t).mp hy with hy | hy
        · subst hy; exact hba
        · exact h.1 y hy
      · exact ih h.2

theorem pairwise_insertionSortBy {α : Type} (le : α → α → Bool)
    (htot : ∀ x y, le x y = true ∨ le y x = true)
    (htrans : ∀ x y z, le x y = true → le y z = true → le x z = true)
    (l : List α) : (insertionSortBy le l).Pairwise (fun x y => le x y = true) := by
  induction l with
  | nil => simp [insertionSortBy]
  | cons a t ih =>
    exact pairwise_orderedInsertBy le htot htrans a (insertionSortBy le t) ih

/-- Two sorted lists that are permutations of each other coincide, given
antisymmetry on their members. -/
theorem pairwise_perm_eq {α : Type} {P : α → α → Prop} :
    ∀ {l₁ l₂ : List α}, l₁.Perm l₂ → l₁.Pairwise P → l₂.Pairwise P →
      (∀ a ∈ l₁, ∀ b ∈ l₁, P a b → P b a → a = b) → l₁ = l₂ := by
  intro l₁
  induction l₁ with
  | nil =>
    intro l₂ hp _ _ _
    exact (hp.symm.eq_nil).symm
  | cons x t₁ ih =>
    intro l₂ hp h1 h2 hanti
    cases l₂ with
    | nil => exact absurd hp.eq_nil (by simp)
    | cons y t₂ =>
      rw [List.pairwise_cons] at h1 h2
      by_cases hxy : x = y
      · subst hxy
        have ht : t₁.Perm t₂ := hp.cons_inv
        have : t₁ = t₂ := by
          apply ih ht h1.2 h2.2
          intro a ha b hb
          exact hanti a (List.mem_cons_of_mem x ha) b (List.mem_cons_of_mem x hb)
        rw [this]
      · have hx2 : x ∈ y :: t₂ := hp.mem_iff.mp (List.mem_cons_self x t₁)
        have hx2' : x ∈ t₂ := by
          rcases List.mem_cons.mp hx2 with h | h
          · exact absurd h hxy
          · exact h
        have hy1 : y ∈ x :: t₁ := hp.symm.mem_iff.mp (List.mem_cons_self y t₂)
        have hy1' : y ∈ t₁ := by
          rcases List.mem_cons.mp hy1 with h | h
          · exact absurd h.symm hxy
          · exact h
        have pxy : P x y := h1.1 y hy1'
        have pyx : P y x := h2.1 x hx2'
        exact absurd (hanti x (List.mem_cons_self x t₁) y hy1 pxy pyx) hxy

/-! ### User order-by application -/

/-- `UserIDBClass._applyOrderByClause`: no-op without `orderBy`; otherwise
resolve the per-clause keys and stable-sort by the composite comparator
(records with comparator ≤ 0 stay in scan order before greater ones). -/
def userApplyOrderByClause (records : List UserRecord) :
    Option (List UserOrderClause) → List UserRecord
  | none => records
  | some cs => insertionSortBy (fun a b => userCmpClauses cs a b != Ordering.gt) records

/-- Direction reversal of one clause (used to state the order-reversal
property of §8). -/
def flipSortOrder : SortOrder → SortOrder
  | .asc => .desc
  | .desc => .asc

def flipUserOrderClause (c : UserOrderClause) : UserOrderClause :=
  ⟨c.id.map flipSortOrder, c.name.map flipSortOrder⟩

theorem userResolveOrderByKey_flip (r : UserRecord) (c : UserOrderClause) :
    userResolveOrderByKey r (flipUserOrderClause c) = userResolveOrderByKey r c := by
  unfold userResolveOrderByKey flipUserOrderClause
  cases c.id <;> cases c.name <;> rfl

theorem genericComparator_flip (x y : KeyVal) (d : SortOrder) :
    genericComparator x y (flipSortOrder d) = (genericComparator x y d).swap := by
  cases d <;> simp [genericComparator, flipSortOrder, Ordering.swap_swap]

theorem userCmpClauses_flip (cs : List UserOrderClause) (a b : UserRecord)
    (hwf : ∀ c ∈ cs, (userResolveSortOrder c).isSome) :
    userCmpClauses (cs.map flipUserOrderClause) a b = (userCmpClauses cs a b).swap := by
  induction cs with
  | nil => rfl
  | cons c rest ih =>
    simp only [List.map_cons, userCmpClauses]
    have hkey : ∀ r, userResolveOrderByKey r (flipUserOrderClause c) = userResolveOrderByKey r c :=
      fun r => userResolveOrderByKey_flip r c
    have hdir : userResolveSortOrder (flipUserOrderClause c) =
        (userResolveSortOrder c).map flipSortOrder := by
      unfold userResolveSortOrder flipUserOrderClause
      cases c.id <;> cases c.name <;> rfl
    rcases hs : userResolveSortOrder c with _ | d
    · exact absurd hs (by
        have := hwf c (List.mem_cons_self c rest)
        intro hx; rw [hx] at this; cases this)
    · rw [hkey a, hkey b, hdir, hs]
      have hg0 : (Option.map flipSortOrder (some d)).getD SortOrder.asc = flipSortOrder d := rfl
      have hg1 : (Option.getD (some d) SortOrder.asc) = d := rfl
      rw [hg0, hg1, genericComparator_flip]
      cases hg : genericComparator (userResolveOrderByKey a c) (userResolveOrderByKey b c) d
      · rfl
      · exact ih (fun x hx => hwf x (List.mem_cons_of_mem c hx))
      · rfl

/-! ### User find pipeline -/

structure UserFindQuery where
  whereQ : Option UserWhere
  orderBy : Option (List UserOrderClause)
  deriving DecidableEq

/-- `UserIDBClass._applyWhereClause` as an order-preserving list filter
(sub-queries for the quantifiers read the same store snapshot `db`). -/
def userApplyWhereClause (db : DB) (records : List UserRecord) :
    Option UserWhere → List UserRecord
  | none => records
  | some w => records.filter (fun r => userWhereMatches db w r)

/-- `UserIDBClass.findMany` on the embedded query fragment (no
`select`/`include`, under which `_applyRelations` and `_applySelectClause`
are identities and `_preprocessListFields` is a no-op for `User`). -/
def userFindMany (db : DB) (q : UserFindQuery) : List UserRecord :=
  userApplyOrderByClause (userApplyWhereClause db db.user q.whereQ) q.orderBy

/-- `UserIDBClass.findFirst`: `(await this.findMany(query, tx))[0] ?? null`. -/
def userFindFirst (db : DB) (q : UserFindQuery) : Option UserRecord :=
  (userFindMany db q).head?

/-! ### findUnique (per entity)

`findUnique` looks the record up by its unique selector (`store.get` /
unique index), with JavaScript truthiness on the selector value (`0` and
`""` are falsy and leave the record undefined), then re-applies the
selector as a where clause to the singleton list. -/

structure UserUniqueWhere where
  id : Option Int
  deriving DecidableEq

/-- The unique input `{ id: v }` read as a where clause (a direct value is
an equality filter). -/
def userUniqueAsWhere (w : UserUniqueWhere) : UserWhere :=
  .node .nil .nil .nil (w.id.map .eqv) none none none

def userFindUnique (db : DB) (w : UserUniqueWhere) : Option UserRecord :=
  match w.id with
  | none => none
  | some v =>
    if v = 0 then none
    else
      match db.user.find? (fun r => r.id == v) with
      | none => none
      | some r => if userWhereMatches db (userUniqueAsWhere w) r then some r else none

structure ProfileUniqueWhere where
  id : Option Int
  userId : Option Int
  deriving DecidableEq

def profileUniqueAsWhere (w : ProfileUniqueWhere) : ProfileWhere :=
  .node .nil .nil .nil (w.id.map .eqv) (w.userId.map .eqv) none

/-- `ProfileIDBClass.findUnique`: lookup by key if `query.where.id` is
truthy, else by the unique `userIdIndex` if `query.where.userId` is
truthy. -/
def profileFindUnique (db : DB) (w : ProfileUniqueWhere) : Option ProfileRecord :=
  let r0 : Option ProfileRecord :=
    match w.id with
    | some v =>
      if v = 0 then
        match w.userId with
        | some u => if u = 0 then none else db.profile.find? (fun r => r.userId == u)
        | none => none
      else db.profile.find? (fun r => r.id == v)
    | none =>
      match w.userId with
      | some u => if u = 0 then none else db.profile.find? (fun r => r.userId == u)
      | none => none
  match r0 with
  | none => none
  | some r => if profileWhereMatches (profileUniqueAsWhere w) r then some r else none

structure PostUniqueWhere where
  id : Option Int
  deriving DecidableEq

def postUniqueAsWhere (w : PostUniqueWhere) : PostWhere :=
  .node .nil .nil .nil (w.id.map .eqv) none none

def postFindUnique (db : DB) (w : PostUniqueWhere) : Option PostRecord :=
  match w.id with
  | none => none
  | some v =>
    if v = 0 then none
    else
      match db.post.find? (fun r => r.id == v) with
      | none => none
      | some r =>
        if postWhereMatches (postUniqueAsWhere w) r then some (postPreprocessListFields r)
        else none

structure CommentUniqueWhere where
  id : Option String
  deriving DecidableEq

def commentUniqueAsWhere (w : CommentUniqueWhere) : CommentWhere :=
  .node .nil .nil .nil (w.id.map .eqv) none none none

def commentFindUnique (db : DB) (w : CommentUniqueWhere) : Option CommentRecord :=
  match w.id with
  | none => none
  | some v =>
    if v = "" then none
    else
      match db.comment.find? (fun r => r.id == v) with
      | none => none
      | some r => if commentWhereMatches (commentUniqueAsWhere w) r then some r else none

/-! ### Default filler -/

/-- Largest id currently in a store: `_fillDefaults` opens a cursor in
`"prev"` (key-descending) direction, so the first record it yields holds
the maximum key. -/
def maxIntList : List Int → Option Int
  | [] => none
  | x :: xs => some (xs.foldl max x)

def userMaxKey (db : DB) : Option Int := maxIntList (db.user.map (fun r => r.id))

def profileMaxKey (db : DB) : Option Int := maxIntList (db.profile.map (fun r => r.id))

def postMaxKey (db : DB) : Option Int := maxIntList (db.post.map (fun r => r.id))

/-- Scalar-list create input: a plain array or a `{ set: [...] }` wrapper. -/
inductive ListStrInput where
  | arr (l : List String)
  | setW (l : List String)
  deriving DecidableEq

inductive ListIntInput where
  | arr (l : List Int)
  | setW (l : List Int)
  deriving DecidableEq

/-! ### Update handlers

Modelled from the spec: §4.6 "apply per-field patch semantics by scalar
kind (set; numeric increment/decrement/multiply/divide; list
push/set/unset)".  The `handleStringUpdateField` / `handleIntUpdateField`
/ `handleScalarListUpdateField` helpers live in the generated
`idb-utils.ts`, which is not part of the source tree. -/

inductive IntUpdate where
  | setv (v : Int)
  | setNull
  | increment (n : Int)
  | decrement (n : Int)
  | multiply (n : Int)
  | divide (n : Int)
  deriving DecidableEq

/-- Modelled from the spec: `handleIntUpdateField` on a nullable numeric
field; an absent input leaves the field unchanged. -/
def handleIntUpdateField (cur : Option Int) : Option IntUpdate → Option Int
  | none => cur
  | some (.setv v) => some v
  | some .setNull => none
  | some (.increment n) => cur.map (fun c => c + n)
  | some (.decrement n) => cur.map (fun c => c - n)
  | some (.multiply n) => cur.map (fun c => c * n)
  | some (.divide n) => cur.map (fun c => c / n)

/-- `handleIntUpdateField` on a required numeric field (the typed caller
layer never passes null for a required field; that case keeps the current
value). -/
def handleIntUpdateFieldReq (cur : Int) : Option IntUpdate → Int
  | none => cur
  | some (.setv v) => v
  | some .setNull => cur
  | some (.increment n) => cur + n
  | some (.decrement n) => cur - n
  | some (.multiply n) => cur * n
  | some (.divide n) => cur / n

inductive StrUpdate where
  | setv (v : String)
  | setNull
  deriving DecidableEq

/-- Modelled from the spec: `handleStringUpdateField` on a nullable string
field. -/
def handleStringUpdateField (cur : Option String) : Option StrUpdate → Option String
  | none => cur
  | some (.setv v) => some v
  | some .setNull => none

/-- `handleStringUpdateField` on a required string field. -/
def handleStringUpdateFieldReq (cur : String) : Option StrUpdate → String
  | none => cur
  | some (.setv v) => v
  | some .setNull => cur

inductive ListStrUpdate where
  | setL (l : List String)
  | push (l : List String)
  | unsetL
  deriving DecidableEq

inductive ListIntUpdate where
  | setL (l : List Int)
  | push (l : List Int)
  | unsetL
  deriving DecidableEq

/-- Modelled from the spec: `handleScalarListUpdateField` (list
push/set/unset). -/
def handleListStrUpdateField (cur : Option (List String)) :
    Option ListStrUpdate → Option (List String)
  | none => cur
  | some (.setL l) => some l
  | some (.push l) => some (cur.getD [] ++ l)
  | some .unsetL => none

def handleListIntUpdateField (cur : Option (List Int)) :
    Option ListIntUpdate → Option (List Int)
  | none => cur
  | some (.setL l) => some l
  | some (.push l) => some (cur.getD [] ++ l)
  | some .unsetL => none

/-! ### Store writes -/

/-- `tx.objectStore("User").add(record)`, returning the key path `[id]`
(the embedding assumes the key is fresh; the real `add` raises a
constraint error on key collision, which no claim exercises). -/
def addUserRecord (r : UserRecord) : EngineM Int := fun tx =>
  ({ tx with db := { tx.db with user := tx.db.user ++ [r] } }, .ok r.id)

def addProfileRecord (r : ProfileRecord) : EngineM Int := fun tx =>
  ({ tx with db := { tx.db with profile := tx.db.profile ++ [r] } }, .ok r.id)

def addPostRecord (r : PostRecord) : EngineM Int := fun tx =>
  ({ tx with db := { tx.db with post := tx.db.post ++ [r] } }, .ok r.id)

def addCommentRecord (r : CommentRecord) : EngineM String := fun tx =>
  ({ tx with db := { tx.db with comment := tx.db.comment ++ [r] } }, .ok r.id)

/-- `tx.objectStore(...).put(record)`: replace the row under the record's
key if present, else insert; returns the key path `[id]`. -/
def putList {α : Type} (key : α → Int) (r : α) (l : List α) : List α :=
  if l.any (fun x => key x == key r) then
    l.map (fun x => if key x == key r then r else x)
  else l ++ [r]

def putUserRecord (r : UserRecord) : EngineM Int := fun tx =>
  ({ tx with db := { tx.db with user := putList (fun x => x.id) r tx.db.user } }, .ok r.id)

def putProfileRecord (r : ProfileRecord) : EngineM Int := fun tx =>
  ({ tx with db := { tx.db with profile := putList (fun x => x.id) r tx.db.profile } }, .ok r.id)

def putPostRecord (r : PostRecord) : EngineM Int := fun tx =>
  ({ tx with db := { tx.db with post := putList (fun x => x.id) r tx.db.post } }, .ok r.id)

def putCommentList (r : CommentRecord) (l : List CommentRecord) : List CommentRecord :=
  if l.any (fun x => x.id == r.id) then
    l.map (fun x => if x.id == r.id then r else x)
  else l ++ [r]

def putCommentRecord (r : CommentRecord) : EngineM String := fun tx =>
  ({ tx with db := { tx.db with comment := putCommentList r tx.db.comment } }, .ok r.id)

/-! ### findUniqueOrThrow / findFirstOrThrow -/

/-- `UserIDBClass.findUniqueOrThrow`: on a miss, `tx.abort()` then
`throw new Error("Record not found")`. -/
def userFindUniqueOrThrow (w : UserUniqueWhere) : EngineM UserRecord := do
  let db ← getDb
  match userFindUnique db w with
  | none => abortThrowE .notFound
  | some r => pure r

def postFindUniqueOrThrow (w : PostUniqueWhere) : EngineM PostRecord := do
  let db ← getDb
  match postFindUnique db w with
  | none => abortThrowE .notFound
  | some r => pure r

/-- `UserIDBClass.findFirstOrThrow`. -/
def userFindFirstOrThrow (q : UserFindQuery) : EngineM UserRecord := do
  let db ← getDb
  match userFindFirst db q with
  | none => abortThrowE .notFound
  | some r => pure r

/-! ### update (per entity)

`update`: locate via `findUnique({ where: query.where })` (abort + throw
on a miss), patch each scalar field through the update handlers
(string fields first, then int fields, then scalar-list fields, in source
order), `put` the patched record, then re-read it under the key returned
by `put` (the source asserts the re-read with `!`; a failed re-read is
modelled as `notFound`). -/

structure UserUpdateData where
  name : Option StrUpdate
  id : Option IntUpdate
  deriving DecidableEq

structure UserUpdateQuery where
  whereU : UserUniqueWhere
  data : UserUpdateData
  deriving DecidableEq

def userUpdate (q : UserUpdateQuery) : EngineM UserRecord := do
  let db ← getDb
  match userFindUnique db q.whereU with
  | none => abortThrowE .notFound
  | some r =>
    let r1 : UserRecord := { r with name := handleStringUpdateFieldReq r.name q.data.name }
    let r2 : UserRecord := { r1 with id := handleIntUpdateFieldReq r1.id q.data.id }
    let keyPath ← putUserRecord r2
    let db2 ← getDb
    match userFindUnique db2 ⟨some keyPath⟩ with
    | some rr => pure rr
    | none => throwE .notFound

structure ProfileUpdateData where
  bio : Option StrUpdate
  id : Option IntUpdate
  userId : Option IntUpdate
  deriving DecidableEq

structure ProfileUpdateQuery where
  whereU : ProfileUniqueWhere
  data : ProfileUpdateData
  deriving DecidableEq

def profileUpdate (q : ProfileUpdateQuery) : EngineM ProfileRecord := do
  let db ← getDb
  match profileFindUnique db q.whereU with
  | none => abortThrowE .notFound
  | some r =>
    let r1 : ProfileRecord := { r with bio := handleStringUpdateField r.bio q.data.bio }
    let r2 : ProfileRecord := { r1 with id := handleIntUpdateFieldReq r1.id q.data.id }
    let r3 : ProfileRecord := { r2 with userId := handleIntUpdateFieldReq r2.userId q.data.userId }
    let keyPath ← putProfileRecord r3
    let db2 ← getDb
    match profileFindUnique db2 ⟨some keyPath, none⟩ with
    | some rr => pure rr
    | none => throwE .notFound

structure PostUpdateData where
  title : Option StrUpdate
  id : Option IntUpdate
  authorId : Option IntUpdate
  tags : Option ListStrUpdate
  numberArr : Option ListIntUpdate
  deriving DecidableEq

structure PostUpdateQuery where
  whereU : PostUniqueWhere
  data : PostUpdateData
  deriving DecidableEq

def postUpdate (q : PostUpdateQuery) : EngineM PostRecord := do
  let db ← getDb
  match postFindUnique db q.whereU with
  | none => abortThrowE .notFound
  | some r =>
    let r1 : PostRecord := { r with title := handleStringUpdateFieldReq r.title q.data.title }
    let r2 : PostRecord := { r1 with id := handleIntUpdateFieldReq r1.id q.data.id }
    let r3 : PostRecord := { r2 with authorId := handleIntUpdateField r2.authorId q.data.authorId }
    let r4 : PostRecord := { r3 with tags := handleListStrUpdateField r3.tags q.data.tags }
    let r5 : PostRecord := { r4 with numberArr := handleListIntUpdateField r4.numberArr q.data.numberArr }
    let keyPath ← putPostRecord r5
    let db2 ← getDb
    match postFindUnique db2 ⟨some keyPath⟩ with
    | some rr => pure rr
    | none => throwE .notFound

structure CommentUpdateData where
  id : Option StrUpdate
  text : Option StrUpdate
  postId : Option IntUpdate
  userId : Option IntUpdate
  deriving DecidableEq

structure CommentUpdateQuery where
  whereU : CommentUniqueWhere
  data : CommentUpdateData
  deriving DecidableEq

def commentUpdate (q : CommentUpdateQuery) : EngineM CommentRecord := do
  let db ← getDb
  match commentFindUnique db q.whereU with
  | none => abortThrowE .notFound
  | some r =>
    let r1 : CommentRecord := { r with id := handleStringUpdateFieldReq r.id q.data.id }
    let r2 : CommentRecord := { r1 with text := handleStringUpdateFieldReq r1.text q.data.text }
    let r3 : CommentRecord := { r2 with postId := handleIntUpdateFieldReq r2.postId q.data.postId }
    let r4 : CommentRecord := { r3 with userId := handleIntUpdateFieldReq r3.userId q.data.userId }
    let keyPath ← putCommentRecord r4
    let db2 ← getDb
    match commentFindUnique db2 ⟨some keyPath⟩ with
    | some rr => pure rr
    | none => throwE .notFound

/-! ### delete / deleteMany

`delete`: locate via `findUnique` (plain `throw` on a miss — no
`tx.abort()`), cascade-delete dependents where the schema marks them
cascading (`User` → `Profile`, `Comment`; `Profile`/`Comment` → none in
the embedded claim paths), then remove the row.  `deleteMany` is `delete`
applied to every row matched by `findMany`, in scan order. -/

def profileDelete (w : ProfileUniqueWhere) : EngineM ProfileRecord := do
  let db ← getDb
  match profileFindUnique db w with
  | none => throwE .notFound
  | some r => do
    modifyDb (fun db2 => { db2 with profile := db2.profile.filter (fun p => p.id != r.id) })
    pure r

def profileDeleteManyLoop : List ProfileRecord → EngineM Unit
  | [] => pure ()
  | r :: rest => do
    let _ ← profileDelete ⟨some r.id, none⟩
    profileDeleteManyLoop rest

def profileDeleteMany (q : ProfileFindQuery) : EngineM Nat := do
  let db ← getDb
  let records := profileFindMany db q
  profileDeleteManyLoop records
  pure records.length

def commentDelete (w : CommentUniqueWhere) : EngineM CommentRecord := do
  let db ← getDb
  match commentFindUnique db w with
  | none => throwE .notFound
  | some r => do
    modifyDb (fun db2 => { db2 with comment := db2.comment.filter (fun p => p.id != r.id) })
    pure r

def commentDeleteManyLoop : List CommentRecord → EngineM Unit
  | [] => pure ()
  | r :: rest => do
    let _ ← commentDelete ⟨some r.id⟩
    commentDeleteManyLoop rest

def commentDeleteMany (q : CommentFindQuery) : EngineM Nat := do
  let db ← getDb
  let records := commentFindMany db q
  commentDeleteManyLoop records
  pure records.length

/-- `UserIDBClass.delete`: find the row (plain throw on a miss), then
`profile.deleteMany({ where: { userId: record.id } })` and
`comment.deleteMany({ where: { userId: record.id } })` — `Post` rows are
not touched (the schema marks no cascade on `Post.author`) — then delete
the user row. -/
def userDelete (w : UserUniqueWhere) : EngineM UserRecord := do
  let db ← getDb
  match userFindUnique db w with
  | none => throwE .notFound
  | some r => do
    let _ ← profileDeleteMany ⟨some (.node .nil .nil .nil none (some (.eqv r.id)) none)⟩
    let _ ← commentDeleteMany ⟨some (.node .nil .nil .nil none none none (some (.eqv r.id)))⟩
    modifyDb (fun db2 => { db2 with user := db2.user.filter (fun u => u.id != r.id) })
    pure r

/-! ### Create payloads

The nested-write payload trees (`Prisma.Args<..., "create">["data"]`).
`connectOrCreate` carries `{ where, create }` in the source but the create
path only tests its presence before throwing, so it is embedded as a
presence flag.  List-valued nested forms are `convertToArray`-normalised
to lists ([] standing for an absent key). -/

mutual
inductive UserCreateData where
  | mk (id : Option Int) (name : String) (profile : Option ProfileNested)
      (posts : Option PostsNested) (comments : Option CommentsNested)
inductive ProfileNested where
  | mk (create : Option ProfileCreateData) (connect : Option ProfileUniqueWhere)
      (connectOrCreate : Bool)
inductive PostsNested where
  | mk (create : List PostCreateData) (connect : List PostUniqueWhere)
      (connectOrCreate : Bool) (createMany : Option (List PostCreateData))
inductive CommentsNested where
  | mk (create : List CommentCreateData) (connect : List CommentUniqueWhere)
      (connectOrCreate : Bool) (createMany : Option (List CommentCreateData))
inductive ProfileCreateData where
  | mk (id : Option Int) (bio : Option String) (user : Option UserNested)
      (userId : Option Int)
inductive UserNested where
  | mk (create : Option UserCreateData) (connect : Option UserUniqueWhere)
      (connectOrCreate : Bool)
inductive PostCreateData where
  | mk (id : Option Int) (title : String) (author : Option UserNested)
      (authorId : Option (Option Int)) (tags : Option ListStrInput)
      (numberArr : Option ListIntInput) (comments : Option CommentsNested)
inductive CommentCreateData where
  | mk (id : Option String) (post : Option PostNested) (postId : Option Int)
      (user : Option UserNested) (userId : Option Int) (text : String)
inductive PostNested where
  | mk (create : Option PostCreateData) (connect : Option PostUniqueWhere)
      (connectOrCreate : Bool)
end

/-! ### Default filler (`_fillDefaults`) -/

/-- `UserIDBClass._fillDefaults`: when `id` is absent, take the cursor in
key-descending order — `max + 1`, or `1` for an empty store. -/
def userFillDefaults (db : DB) (d : UserCreateData) : UserCreateData :=
  match d with
  | .mk id name profile posts comments =>
    match id with
    | some v => .mk (some v) name profile posts comments
    | none =>
      .mk (some (match userMaxKey db with | none => 1 | some m => m + 1))
        name profile posts comments

/-- `ProfileIDBClass._fillDefaults`: auto-increment `id`; an absent `bio`
becomes `null` (absent and `null` coincide in the embedding). -/
def profileFillDefaults (db : DB) (d : ProfileCreateData) : ProfileCreateData :=
  match d with
  | .mk id bio user userId =>
    match id with
    | some v => .mk (some v) bio user userId
    | none =>
      .mk (some (match profileMaxKey db with | none => 1 | some m => m + 1)) bio user userId

/-- `PostIDBClass._fillDefaults`: auto-increment `id`; an absent
`authorId` becomes `null`; `{ set: [...] }` list inputs are unwrapped to
plain arrays. -/
def postFillDefaults (db : DB) (d : PostCreateData) : PostCreateData :=
  match d with
  | .mk id title author authorId tags numberArr comments =>
    let id' := match id with
      | some v => some v
      | none => some (match postMaxKey db with | none => 1 | some m => m + 1)
    let authorId' := match authorId with
      | some v => some v
      | none => some none
    let tags' := match tags with
      | some (.setW l) => some (.arr l)
      | t => t
    let numberArr' := match numberArr with
      | some (.setW l) => some (.arr l)
      | t => t
    .mk id' title author authorId' tags' numberArr' comments

/-- `CommentIDBClass._fillDefaults`: when `id` is absent, assign
`createId()` — the next output of the external cuid generator. -/
def commentFillDefaults (d : CommentCreateData) : EngineM CommentCreateData :=
  match d with
  | .mk id post postId user userId text =>
    match id with
    | some v => pure (.mk (some v) post postId user userId text)
    | none => do
      let gid ← nextCuid
      pure (.mk (some gid) post postId user userId text)

/-! ### `_removeNestedCreateData` (strip relation sub-objects and build the
persisted row; `_fillDefaults` has already supplied the key). -/

def toUserRecord (d : UserCreateData) : UserRecord :=
  match d with
  | .mk id name _ _ _ => ⟨id.getD 0, name⟩

def toProfileRecord (d : ProfileCreateData) : ProfileRecord :=
  match d with
  | .mk id bio _ userId => ⟨id.getD 0, bio, userId.getD 0⟩

def toPostRecord (d : PostCreateData) : PostRecord :=
  match d with
  | .mk id title _ authorId tags numberArr _ =>
    ⟨id.getD 0, title, authorId.join,
      (match tags with
       | some (.arr l) => some l
       | some (.setW l) => some l
       | none => none),
      (match numberArr with
       | some (.arr l) => some l
       | some (.setW l) => some l
       | none => none)⟩

def toCommentRecord (d : CommentCreateData) : CommentRecord :=
  match d with
  | .mk id _ postId _ userId text => ⟨id.getD "", postId.getD 0, userId.getD 0, text⟩

/-! ### Spread helpers used by the nested-create steps -/

/-- `{ ...query.data.profile.create, userId: keyPath[0] }`. -/
def profileCreateDataWithUserId (d : ProfileCreateData) (k : Int) : ProfileCreateData :=
  match d with
  | .mk id bio user _ => .mk id bio user (some k)

/-- `{ ...createData, author: { connect: { id: keyPath[0] } } }`. -/
def postCreateDataWithAuthorConnect (d : PostCreateData) (k : Int) : PostCreateData :=
  match d with
  | .mk id title _ authorId tags numberArr comments =>
    .mk id title (some (.mk none (some ⟨some k⟩) false)) authorId tags numberArr comments

/-- `{ ...createData, authorId: keyPath[0] }` (the `createMany` path). -/
def postCreateDataWithAuthorId (d : PostCreateData) (k : Int) : PostCreateData :=
  match d with
  | .mk id title author _ tags numberArr comments =>
    .mk id title author (some (some k)) tags numberArr comments

/-- `{ ...elem, user: { connect: { id: keyPath[0] } } }`. -/
def commentCreateDataWithUserConnect (d : CommentCreateData) (k : Int) : CommentCreateData :=
  match d with
  | .mk id post postId _ userId text =>
    .mk id post postId (some (.mk none (some ⟨some k⟩) false)) userId text

/-- `{ ...elem, userId: keyPath[0] }`. -/
def commentCreateDataWithUserId (d : CommentCreateData) (k : Int) : CommentCreateData :=
  match d with
  | .mk id post postId user _ text => .mk id post postId user (some k) text

/-- `{ ...elem, post: { connect: { id: keyPath[0] } } }`. -/
def commentCreateDataWithPostConnect (d : CommentCreateData) (k : Int) : CommentCreateData :=
  match d with
  | .mk id _ postId user userId text =>
    .mk id (some (.mk none (some ⟨some k⟩) false)) postId user userId text

/-- `{ ...elem, postId: keyPath[0] }`. -/
def commentCreateDataWithPostId (d : CommentCreateData) (k : Int) : CommentCreateData :=
  match d with
  | .mk id post _ user userId text => .mk id post (some k) user userId text

/-! ### createMany (per entity; `_fillDefaults` + `add` per element) -/

def postCreateManyLoop : List PostCreateData → EngineM Unit
  | [] => pure ()
  | d :: rest => do
    let db ← getDb
    let _ ← addPostRecord (toPostRecord (postFillDefaults db d))
    postCreateManyLoop rest

def postCreateMany (data : List PostCreateData) : EngineM Nat := do
  postCreateManyLoop data
  pure data.length

def commentCreateManyLoop : List CommentCreateData → EngineM Unit
  | [] => pure ()
  | d :: rest => do
    let d' ← commentFillDefaults d
    let _ ← addCommentRecord (toCommentRecord d')
    commentCreateManyLoop rest

def commentCreateMany (data : List CommentCreateData) : EngineM Nat := do
  commentCreateManyLoop data
  pure data.length

/-! ### connect loops (`update` with the parent key as foreign key) -/

def postsConnectLoop (k : Int) : List PostUniqueWhere → EngineM Unit
  | [] => pure ()
  | w :: rest => do
    let _ ← postUpdate ⟨w, ⟨none, none, some (.setv k), none, none⟩⟩
    postsConnectLoop k rest

def commentsConnectLoopUser (k : Int) : List CommentUniqueWhere → EngineM Unit
  | [] => pure ()
  | w :: rest => do
    let _ ← commentUpdate ⟨w, ⟨none, none, none, some (.setv k)⟩⟩
    commentsConnectLoopUser k rest

def commentsConnectLoopPost (k : Int) : List CommentUniqueWhere → EngineM Unit
  | [] => pure ()
  | w :: rest => do
    let _ ← commentUpdate ⟨w, ⟨none, none, some (.setv k), none⟩⟩
    commentsConnectLoopPost k rest

/-! ### create (nested-write orchestrator)

One fuel unit is consumed per step of the mutual recursion; `n+1` fuel
always suffices for a payload of nesting depth `n`.  Bodies follow the
generated methods line by line: owning-side relations are resolved before
the row is added (`Profile`, `Post`, `Comment` creates), non-owning-side
nested writes run after it (`User`, `Post` creates), `connectOrCreate`
throws `UnsupportedOperation` where the source tests it demands. -/

mutual
def userCreate : Nat → UserCreateData → EngineM UserRecord
  | 0, _ => throwE .fuelExhausted
  | n+1, d => do
    let db ← getDb
    let record := toUserRecord (userFillDefaults db d)
    let keyPath ← addUserRecord record
    match d with
    | .mk _ _ profile posts comments => do
      (match profile with
       | none => pure ()
       | some (.mk pcreate pconnect pcoc) => do
         (match pcreate with
          | none => pure ()
          | some pc => do
            let _ ← profileCreate n (profileCreateDataWithUserId pc keyPath)
            pure ())
         (match pconnect with
          | none => pure ()
          | some w => do
            let _ ← profileUpdate ⟨w, ⟨none, none, some (.setv keyPath)⟩⟩
            pure ())
         (if pcoc then throwE .unsupported else pure ()))
      (match posts with
       | none => pure ()
       | some (.mk pcreate pconnect pcoc pcreateMany) => do
         postsCreateLoop n keyPath pcreate
         postsConnectLoop keyPath pconnect
         (if pcoc then throwE .unsupported else pure ())
         (match pcreateMany with
          | none => pure ()
          | some ds => do
            let _ ← postCreateMany (ds.map (fun cd => postCreateDataWithAuthorId cd keyPath))
            pure ()))
      (match comments with
       | none => pure ()
       | some (.mk ccreate cconnect ccoc ccreateMany) => do
         commentsCreateLoopUser n keyPath ccreate
         commentsConnectLoopUser keyPath cconnect
         (if ccoc then throwE .unsupported else pure ())
         (match ccreateMany with
          | none => pure ()
          | some ds => do
            let _ ← commentCreateMany (ds.map (fun cd => commentCreateDataWithUserId cd keyPath))
            pure ()))
      let db2 ← getDb
      match db2.user.find? (fun r => r.id == keyPath) with
      | some data2 => pure data2
      | none => throwE .notFound

def profileCreate : Nat → ProfileCreateData → EngineM ProfileRecord
  | 0, _ => throwE .fuelExhausted
  | n+1, d => do
    let d' ← (match d with
      | .mk id bio user userId =>
        match user with
        | some (.mk ucreate uconnect ucoc) => do
          let fk1 : Option Int ← (match ucreate with
            | none => pure none
            | some uc => do
              let r ← userCreate n uc
              pure (some r.id))
          let fk2 : Option Int ← (match uconnect with
            | none => pure fk1
            | some w => do
              let r ← userFindUniqueOrThrow w
              pure (some r.id))
          (if ucoc then throwE .unsupported else pure ())
          pure (ProfileCreateData.mk id bio none fk2)
        | none => do
          (match userId with
           | some v => do
             let _ ← userFindUniqueOrThrow ⟨some v⟩
             pure ()
           | none => pure ())
          pure d)
    let db ← getDb
    let record := toProfileRecord (profileFillDefaults db d')
    let keyPath ← addProfileRecord record
    let db2 ← getDb
    match db2.profile.find? (fun r => r.id == keyPath) with
    | some data2 => pure data2
    | none => throwE .notFound

def postCreate : Nat → PostCreateData → EngineM PostRecord
  | 0, _ => throwE .fuelExhausted
  | n+1, d => do
    let d' ← (match d with
      | .mk id title author authorId tags numberArr comments =>
        match author with
        | some (.mk ucreate uconnect ucoc) => do
          let fk1 : Option Int ← (match ucreate with
            | none => pure none
            | some uc => do
              let r ← userCreate n uc
              pure (some r.id))
          let fk2 : Option Int ← (match uconnect with
            | none => pure fk1
            | some w => do
              let r ← userFindUniqueOrThrow w
              pure (some r.id))
          (if ucoc then throwE .unsupported else pure ())
          pure (PostCreateData.mk id title none (some fk2) tags numberArr comments)
        | none => do
          (match authorId with
           | some (some v) => do
             let _ ← userFindUniqueOrThrow ⟨some v⟩
             pure ()
           | _ => pure ())
          pure d)
    let db ← getDb
    let record := toPostRecord (postFillDefaults db d')
    let keyPath ← addPostRecord record
    (match d' with
     | .mk _ _ _ _ _ _ comments =>
       match comments with
       | none => pure ()
       | some (.mk ccreate cconnect ccoc ccreateMany) => do
         commentsCreateLoopPost n keyPath ccreate
         commentsConnectLoopPost keyPath cconnect
         (if ccoc then throwE .unsupported else pure ())
         (match ccreateMany with
          | none => pure ()
          | some ds => do
            let _ ← commentCreateMany (ds.map (fun cd => commentCreateDataWithPostId cd keyPath))
            pure ()))
    let db2 ← getDb
    match db2.post.find? (fun r => r.id == keyPath) with
    | some data2 => pure (postPreprocessListFields data2)
    | none => throwE .notFound

def commentCreate : Nat → CommentCreateData → EngineM CommentRecord
  | 0, _ => throwE .fuelExhausted
  | n+1, d => do
    let d1 ← (match d with
      | .mk id post postId user userId text =>
        match post with
        | some (.mk pcreate pconnect pcoc) => do
          let fk1 : Option Int ← (match pcreate with
            | none => pure none
            | some pc => do
              let r ← postCreate n pc
              pure (some r.id))
          let fk2 : Option Int ← (match pconnect with
            | none => pure fk1
            | some w => do
              let r ← postFindUniqueOrThrow w
              pure (some r.id))
          (if pcoc then throwE .unsupported else pure ())
          pure (CommentCreateData.mk id none fk2 user userId text)
        | none => do
          (match postId with
           | some v => do
             let _ ← postFindUniqueOrThrow ⟨some v⟩
             pure ()
           | none => pure ())
          pure d)
    let d2 ← (match d1 with
      | .mk id post postId user userId text =>
        match user with
        | some (.mk ucreate uconnect ucoc) => do
          let fk1 : Option Int ← (match ucreate with
            | none => pure none
            | some uc => do
              let r ← userCreate n uc
              pure (some r.id))
          let fk2 : Option Int ← (match uconnect with
            | none => pure fk1
            | some w => do
              let r ← userFindUniqueOrThrow w
              pure (some r.id))
          (if ucoc then throwE .unsupported else pure ())
          pure (CommentCreateData.mk id post postId none fk2 text)
        | none => do
          (match userId with
           | some v => do
             let _ ← userFindUniqueOrThrow ⟨some v⟩
             pure ()
           | none => pure ())
          pure d1)
    let d3 ← commentFillDefaults d2
    let record := toCommentRecord d3
    let keyPath ← addCommentRecord record
    let db2 ← getDb
    match db2.comment.find? (fun r => r.id == keyPath) with
    | some data2 => pure data2
    | none => throwE .notFound

def postsCreateLoop : Nat → Int → List PostCreateData → EngineM Unit
  | 0, _, _ => throwE .fuelExhausted
  | _+1, _, [] => pure ()
  | n+1, k, cd :: rest => do
    let _ ← postCreate n (postCreateDataWithAuthorConnect cd k)
    postsCreateLoop n k rest

def commentsCreateLoopUser : Nat → Int → List CommentCreateData → EngineM Unit
  | 0, _, _ => throwE .fuelExhausted
  | _+1, _, [] => pure ()
  | n+1, k, elem :: rest => do
    (match elem with
     | .mk id post postId user userId text =>
       if post.isSome && postId.isNone then do
         let _ ← commentCreate n
           (commentCreateDataWithUserConnect (.mk id post postId user userId text) k)
         pure ()
       else if postId.isSome then do
         let _ ← commentCreate n
           (commentCreateDataWithUserId (.mk id post postId user userId text) k)
         pure ()
       else pure ())
    commentsCreateLoopUser n k rest

def commentsCreateLoopPost : Nat → Int → List CommentCreateData → EngineM Unit
  | 0, _, _ => throwE .fuelExhausted
  | _+1, _, [] => pure ()
  | n+1, k, elem :: rest => do
    (match elem with
     | .mk id post postId user userId text =>
       if user.isSome && userId.isNone then do
         let _ ← commentCreate n
           (commentCreateDataWithPostConnect (.mk id post postId user userId text) k)
         pure ()
       else if userId.isSome then do
         let _ ← commentCreate n
           (commentCreateDataWithPostId (.mk id post postId user userId text) k)
         pure ()
       else pure ())
    commentsCreateLoopPost n k rest
end

/-! ### Scope analyzer (`_getNeededStoresForFind` / `_getNeededStoresForWhere`)

The generated walks pass query sub-objects between entity classes without
run-time type checks (notably `{ orderBy: orderBy_post }` hands the whole
*comment-level* clause to the post walk), so the query shape is embedded
untyped: one clause/object type carrying the relation field names of every
entity.  Walks are fueled; the claims evaluate them at ample fuel. -/

mutual
inductive GFindQuery where
  | mk (whereQ : Option GWhere) (orderBy : Option (List GOrderBy))
      (selectQ includeQ : Option GSelect)
inductive GWhere where
  | mk (AND OR NOT : List GWhere) (profile author post user : Option GWhere)
      (posts comments : Option GQuant)
inductive GQuant where
  | mk (everyQ someQ noneQ : Option GWhere)
inductive GOrderBy where
  | mk (id name : Option SortOrder)
      (profile posts comments author post user : Option GOrderBy)
inductive GSelect where
  | mk (profile posts comments author post user : Option GSelVal)
inductive GSelVal where
  | bool (b : Bool)
  | q (query : GFindQuery)
end

def gOrderByProfile : GOrderBy → Option GOrderBy
  | .mk _ _ p _ _ _ _ _ => p

def gOrderByPosts : GOrderBy → Option GOrderBy
  | .mk _ _ _ p _ _ _ _ => p

def gOrderByComments : GOrderBy → Option GOrderBy
  | .mk _ _ _ _ c _ _ _ => c

def gOrderByAuthor : GOrderBy → Option GOrderBy
  | .mk _ _ _ _ _ a _ _ => a

def gOrderByPost : GOrderBy → Option GOrderBy
  | .mk _ _ _ _ _ _ p _ => p

def gOrderByUser : GOrderBy → Option GOrderBy
  | .mk _ _ _ _ _ _ _ u => u

def gSelProfile : Option GSelect → Option GSelVal
  | none => none
  | some (.mk p _ _ _ _ _) => p

def gSelPosts : Option GSelect → Option GSelVal
  | none => none
  | some (.mk _ p _ _ _ _) => p

def gSelComments : Option GSelect → Option GSelVal
  | none => none
  | some (.mk _ _ c _ _ _) => c

def gSelAuthor : Option GSelect → Option GSelVal
  | none => none
  | some (.mk _ _ _ a _ _) => a

def gSelPost : Option GSelect → Option GSelVal
  | none => none
  | some (.mk _ _ _ _ p _) => p

def gSelUser : Option GSelect → Option GSelVal
  | none => none
  | some (.mk _ _ _ _ _ u) => u

/-- Truthiness of `query.select?.rel || query.include?.rel`. -/
def gSelTruthy : Option GSelVal → Bool
  | none => false
  | some (.bool b) => b
  | some (.q _) => true

/-- `typeof v === "object"` — the nested-query form of a select value. -/
def gSelObj : Option GSelVal → Option GFindQuery
  | some (.q qq) => some qq
  | _ => none

mutual
def userStoresForWhere : Nat → Option GWhere → Finset StoreName
  | 0, _ => ∅
  | _+1, none => ∅
  | n+1, some (.mk ands ors nots profile _author _post _user posts comments) =>
    (ands.foldr (fun c acc => userStoresForWhere n (some c) ∪ acc) ∅) ∪
    (ors.foldr (fun c acc => userStoresForWhere n (some c) ∪ acc) ∅) ∪
    (nots.foldr (fun c acc => userStoresForWhere n (some c) ∪ acc) ∅) ∪
    (match profile with
     | some p => {StoreName.Profile} ∪ profileStoresForWhere n (some p)
     | none => ∅) ∪
    (match posts with
     | some (.mk e s no) =>
       {StoreName.Post} ∪ postStoresForWhere n e ∪ postStoresForWhere n s ∪
         postStoresForWhere n no
     | none => ∅) ∪
    (match comments with
     | some (.mk e s no) =>
       {StoreName.Comment} ∪ commentStoresForWhere n e ∪ commentStoresForWhere n s ∪
         commentStoresForWhere n no
     | none => ∅)

def profileStoresForWhere : Nat → Option GWhere → Finset StoreName
  | 0, _ => ∅
  | _+1, none => ∅
  | n+1, some (.mk ands ors nots _profile _author _post user _posts _comments) =>
    (ands.foldr (fun c acc => profileStoresForWhere n (some c) ∪ acc) ∅) ∪
    (ors.foldr (fun c acc => profileStoresForWhere n (some c) ∪ acc) ∅) ∪
    (nots.foldr (fun c acc => profileStoresForWhere n (some c) ∪ acc) ∅) ∪
    (match user with
     | some u => {StoreName.User} ∪ userStoresForWhere n (some u)
     | none => ∅)

def postStoresForWhere : Nat → Option GWhere → Finset StoreName
  | 0, _ => ∅
  | _+1, none => ∅
  | n+1, some (.mk ands ors nots _profile author _post _user _posts comments) =>
    (ands.foldr (fun c acc => postStoresForWhere n (some c) ∪ acc) ∅) ∪
    (ors.foldr (fun c acc => postStoresForWhere n (some c) ∪ acc) ∅) ∪
    (nots.foldr (fun c acc => postStoresForWhere n (some c) ∪ acc) ∅) ∪
    (match author with
     | some u => {StoreName.User} ∪ userStoresForWhere n (some u)
     | none => ∅) ∪
    (match comments with
     | some (.mk e s no) =>
       {StoreName.Comment} ∪ commentStoresForWhere n e ∪ commentStoresForWhere n s ∪
         commentStoresForWhere n no
     | none => ∅)

def commentStoresForWhere : Nat → Option GWhere → Finset StoreName
  | 0, _ => ∅
  | _+1, none => ∅
  | n+1, some (.mk ands ors nots _profile _author post user _posts _comments) =>
    (ands.foldr (fun c acc => commentStoresForWhere n (some c) ∪ acc) ∅) ∪
    (ors.foldr (fun c acc => commentStoresForWhere n (some c) ∪ acc) ∅) ∪
    (nots.foldr (fun c acc => commentStoresForWhere n (some c) ∪ acc) ∅) ∪
    (match post with
     | some p => {StoreName.Post} ∪ postStoresForWhere n (some p)
     | none => ∅) ∪
    (match user with
     | some u => {StoreName.User} ∪ userStoresForWhere n (some u)
     | none => ∅)

def userStoresForFind : Nat → GFindQuery → Finset StoreName
  | 0, _ => ∅
  | n+1, .mk whereQ orderBy selectQ includeQ =>
    {StoreName.User} ∪
    userStoresForWhere n whereQ ∪
    (match orderBy with
     | none => ∅
     | some cls =>
       (match cls.find? (fun c => (gOrderByProfile c).isSome) with
        | some c => profileStoresForFind n (.mk none (some [c]) none none)
        | none => ∅) ∪
       (match cls.find? (fun c => (gOrderByPosts c).isSome) with
        | some c => postStoresForFind n (.mk none (some [c]) none none)
        | none => ∅) ∪
       (match cls.find? (fun c => (gOrderByComments c).isSome) with
        | some c => commentStoresForFind n (.mk none (some [c]) none none)
        | none => ∅)) ∪
    (if gSelTruthy (gSelProfile selectQ) || gSelTruthy (gSelProfile includeQ) then
      {StoreName.Profile} ∪
      (match gSelObj (gSelProfile selectQ) with
       | some qq => profileStoresForFind n qq
       | none => ∅) ∪
      (match gSelObj (gSelProfile includeQ) with
       | some qq => profileStoresForFind n qq
       | none => ∅)
     else ∅) ∪
    (if gSelTruthy (gSelPosts selectQ) || gSelTruthy (gSelPosts includeQ) then
      {StoreName.Post} ∪
      (match gSelObj (gSelPosts selectQ) with
       | some qq => postStoresForFind n qq
       | none => ∅) ∪
      (match gSelObj (gSelPosts includeQ) with
       | some qq => postStoresForFind n qq
       | none => ∅)
     else ∅) ∪
    (if gSelTruthy (gSelComments selectQ) || gSelTruthy (gSelComments includeQ) then
      {StoreName.Comment} ∪
      (match gSelObj (gSelComments selectQ) with
       | some qq => commentStoresForFind n qq
       | none => ∅) ∪
      (match gSelObj (gSelComments includeQ) with
       | some qq => commentStoresForFind n qq
       | none => ∅)
     else ∅)

def profileStoresForFind : Nat → GFindQuery → Finset StoreName
  | 0, _ => ∅
  | n+1, .mk whereQ orderBy selectQ includeQ =>
    {StoreName.Profile} ∪
    profileStoresForWhere n whereQ ∪
    (match orderBy with
     | none => ∅
     | some cls =>
       match cls.find? (fun c => (gOrderByUser c).isSome) with
       | some c => userStoresForFind n (.mk none (some [c]) none none)
       | none => ∅) ∪
    (if gSelTruthy (gSelUser selectQ) || gSelTruthy (gSelUser includeQ) then
      {StoreName.User} ∪
      (match gSelObj (gSelUser selectQ) with
       | some qq => userStoresForFind n qq
       | none => ∅) ∪
      (match gSelObj (gSelUser includeQ) with
       | some qq => userStoresForFind n qq
       | none => ∅)
     else ∅)

def postStoresForFind : Nat → GFindQuery → Finset StoreName
  | 0, _ => ∅
  | n+1, .mk whereQ orderBy selectQ includeQ =>
    {StoreName.Post} ∪
    postStoresForWhere n whereQ ∪
    (match orderBy with
     | none => ∅
     | some cls =>
       (match cls.find? (fun c => (gOrderByAuthor c).isSome) with
        | some c => userStoresForFind n (.mk none (some [c]) none none)
        | none => ∅) ∪
       (match cls.find? (fun c => (gOrderByComments c).isSome) with
        | some c => commentStoresForFind n (.mk none (some [c]) none none)
        | none => ∅)) ∪
    (if gSelTruthy (gSelAuthor selectQ) || gSelTruthy (gSelAuthor includeQ) then
      {StoreName.User} ∪
      (match gSelObj (gSelAuthor selectQ) with
       | some qq => userStoresForFind n qq
       | none => ∅) ∪
      (match gSelObj (gSelAuthor includeQ) with
       | some qq => userStoresForFind n qq
       | none => ∅)
     else ∅) ∪
    (if gSelTruthy (gSelComments selectQ) || gSelTruthy (gSelComments includeQ) then
      {StoreName.Comment} ∪
      (match gSelObj (gSelComments selectQ) with
       | some qq => commentStoresForFind n qq
       | none => ∅) ∪
      (match gSelObj (gSelComments includeQ) with
       | some qq => commentStoresForFind n qq
       | none => ∅)
     else ∅)

def commentStoresForFind : Nat → GFindQuery → Finset StoreName
  | 0, _ => ∅
  | n+1, .mk whereQ orderBy selectQ includeQ =>
    {StoreName.Comment} ∪
    commentStoresForWhere n whereQ ∪
    (match orderBy with
     | none => ∅
     | some cls =>
       (match cls.find? (fun c => (gOrderByPost c).isSome) with
        | some c => postStoresForFind n (.mk none (some [c]) none none)
        | none => ∅) ∪
       (match cls.find? (fun c => (gOrderByUser c).isSome) with
        | some c => userStoresForFind n (.mk none (some [c]) none none)
        | none => ∅)) ∪
    (if gSelTruthy (gSelPost selectQ) || gSelTruthy (gSelPost includeQ) then
      {StoreName.Post} ∪
      (match gSelObj (gSelPost selectQ) with
       | some qq => postStoresForFind n qq
       | none => ∅) ∪
      (match gSelObj (gSelPost includeQ) with
       | some qq => postStoresForFind n qq
       | none => ∅)
     else ∅) ∪
    (if gSelTruthy (gSelUser selectQ) || gSelTruthy (gSelUser includeQ) then
      {StoreName.User} ∪
      (match gSelObj (gSelUser selectQ) with
       | some qq => userStoresForFind n qq
       | none => ∅) ∪
      (match gSelObj (gSelUser includeQ) with
       | some qq => userStoresForFind n qq
       | none => ∅)
     else ∅)
end

/-! ### count (Post)

`PostIDBClass.count`: with no `select` (or `select: true`), the length of
`findMany({ where: query?.where })`; with a `select` object, one entry per
selected key — `_all` counts `findMany({ where: query.where })`, any other
key counts `findMany({ where: { [key]: { not: null } } })`, which ignores
the call's `where` clause. -/

inductive PostCountKey where
  | all | id | title | authorId
  deriving DecidableEq, Repr

/-- The clause `{ [key]: { not: null } }` built inside the count loop. -/
def postCountNotNullWhere : PostCountKey → PostWhere
  | .id => .node .nil .nil .nil (some .notNull) none none
  | .title => .node .nil .nil .nil none (some .notNull) none
  | .authorId => .node .nil .nil .nil none none (some .notNull)
  | .all => .node .nil .nil .nil none none none

def postCountEntry (db : DB) (w : Option PostWhere) : PostCountKey → Nat
  | .all => (postFindMany db ⟨w⟩).length
  | .id => (postFindMany db ⟨some (postCountNotNullWhere .id)⟩).length
  | .title => (postFindMany db ⟨some (postCountNotNullWhere .title)⟩).length
  | .authorId => (postFindMany db ⟨some (postCountNotNullWhere .authorId)⟩).length

inductive PostCountResult where
  | num (n : Nat)
  | table (entries : List (PostCountKey × Nat))
  deriving DecidableEq, Repr

def postCount (db : DB) (w : Option PostWhere) :
    Option (List PostCountKey) → PostCountResult
  | none => .num (postFindMany db ⟨w⟩).length
  | some keys => .table (keys.map (fun k => (k, postCountEntry db w k)))

/-! ### Supporting lemmas -/

theorem le_foldl_max (xs : List Int) (a : Int) : a ≤ xs.foldl max a := by
  induction xs generalizing a with
  | nil => simp
  | cons x t ih => exact le_trans (le_max_left a x) (ih (max a x))

theorem mem_le_foldl_max (xs : List Int) (a x : Int) (hx : x ∈ xs) : x ≤ xs.foldl max a := by
  induction xs generalizing a with
  | nil => cases hx
  | cons y t ih =>
    rcases List.mem_cons.mp hx with h | h
    · subst h
      exact le_trans (le_max_right a x) (le_foldl_max t (max a x))
    · exact ih (max a y) h

theorem foldl_max_mem (xs : List Int) (a : Int) :
    xs.foldl max a = a ∨ xs.foldl max a ∈ xs := by
  induction xs generalizing a with
  | nil => left; rfl
  | cons x t ih =>
    rcases ih (max a x) with h | h
    · rcases max_choice a x with hm | hm
      · left; rw [List.foldl_cons, h, hm]
      · right; rw [List.foldl_cons, h, hm]; exact List.mem_cons_self x t
    · right; exact List.mem_cons_of_mem x h

theorem maxIntList_spec (l : List Int) :
    (l = [] ∧ maxIntList l = none) ∨
      (∃ m, maxIntList l = some m ∧ m ∈ l ∧ ∀ x ∈ l, x ≤ m) := by
  cases l with
  | nil => left; exact ⟨rfl, rfl⟩
  | cons x xs =>
    right
    refine ⟨xs.foldl max x, rfl, ?_, ?_⟩
    · rcases foldl_max_mem xs x with h | h
      · rw [h]; exact List.mem_cons_self x xs
      · exact List.mem_cons_of_mem x h
    · intro y hy
      rcases List.mem_cons.mp hy with h | h
      · subst h; exact le_foldl_max xs y
      · exact mem_le_foldl_max xs x y h

/-- Accessors for create-payload fields used in theorem statements. -/
def userCreateId : UserCreateData → Option Int
  | .mk id _ _ _ _ => id

def commentCreateId : CommentCreateData → Option String
  | .mk id _ _ _ _ _ => id

theorem userFindUnique_some (db : DB) (w : UserUniqueWhere) (r : UserRecord)
    (h : userFindUnique db w = some r) :
    w.id = some r.id ∧ r ∈ db.user ∧ r.id ≠ 0 := by
  obtain ⟨wid⟩ := w
  cases wid with
  | none => simp [userFindUnique] at h
  | some v =>
    simp only [userFindUnique] at h
    by_cases hz : v = 0
    · rw [if_pos hz] at h; cases h
    · rw [if_neg hz] at h
      rcases hf : db.user.find? (fun x => x.id == v) with _ | r0 <;> rw [hf] at h
      · cases h
      · dsimp only at h
        by_cases hm : userWhereMatches db (userUniqueAsWhere ⟨some v⟩) r0 = true
        · rw [if_pos hm] at h
          injection h with h
          subst h
          have hv : r0.id = v := by
            have := List.find?_some hf
            simpa using this
          refine ⟨by simp [hv], List.mem_of_find?_eq_some hf, ?_⟩
          rw [hv]; exact hz
        · rw [if_neg hm] at h; cases h

theorem profileFindUnique_of_mem (db : DB) (p : ProfileRecord)
    (hmem : p ∈ db.profile) (hnz : p.id ≠ 0)
    (hnodup : (db.profile.map (fun x => x.id)).Nodup) :
    profileFindUnique db ⟨some p.id, none⟩ = some p := by
  unfold profileFindUnique
  simp only []
  rw [if_neg hnz]
  rcases hf : db.profile.find? (fun r => r.id == p.id) with _ | r0
  · exfalso
    have := List.find?_eq_none.mp hf p hmem
    simp at this
  · have hr0 : r0.id = p.id := by
      have := List.find?_some hf
      simpa using this
    have hr0mem : r0 ∈ db.profile := List.mem_of_find?_eq_some hf
    have heq : r0 = p :=
      List.inj_on_of_nodup_map hnodup hr0mem hmem (by rw [hr0])
    subst heq
    rw [hf]
    simp [profileUniqueAsWhere, profileWhereMatches, profileWhereAllMatch,
      profileWhereNoneMatch, strFilterMatches, numFilterMatches]

theorem commentFindUnique_of_mem (db : DB) (c : CommentRecord)
    (hmem : c ∈ db.comment) (hnz : c.id ≠ "")
    (hnodup : (db.comment.map (fun x => x.id)).Nodup) :
    commentFindUnique db ⟨some c.id⟩ = some c := by
  unfold commentFindUnique
  simp only []
  rw [if_neg hnz]
  rcases hf : db.comment.find? (fun r => r.id == c.id) with _ | r0
  · exfalso
    have := List.find?_eq_none.mp hf c hmem
    simp at this
  · have hr0 : r0.id = c.id := by
      have := List.find?_some hf
      simpa using this
    have hr0mem : r0 ∈ db.comment := List.mem_of_find?_eq_some hf
    have heq : r0 = c :=
      List.inj_on_of_nodup_map hnodup hr0mem hmem (by rw [hr0])
    subst heq
    rw [hf]
    simp [commentUniqueAsWhere, commentWhereMatches, commentWhereAllMatch,
      commentWhereNoneMatch, strFilterMatches, numFilterMatches]

/-! ### delete-loop lemmas -/

theorem profileFilter_step (l : List ProfileRecord) (b : Int) (ids : List Int) :
    (l.filter (fun p => p.id != b)).filter (fun p => decide (¬ p.id ∈ ids)) =
      l.filter (fun p => decide (¬ p.id ∈ b :: ids)) := by
  rw [List.filter_filter]
  apply List.filter_congr
  intro a _
  by_cases h1 : a.id = b <;> by_cases h2 : a.id ∈ ids <;> simp [h1, h2, List.mem_cons]

theorem commentFilter_step (l : List CommentRecord) (b : String) (ids : List String) :
    (l.filter (fun p => p.id != b)).filter (fun p => decide (¬ p.id ∈ ids)) =
      l.filter (fun p => decide (¬ p.id ∈ b :: ids)) := by
  rw [List.filter_filter]
  apply List.filter_congr
  intro a _
  by_cases h1 : a.id = b <;> by_cases h2 : a.id ∈ ids <;> simp [h1, h2, List.mem_cons]

theorem profileDelete_of_mem (tx : TxState) (r : ProfileRecord)
    (hmem : r ∈ tx.db.profile) (hnz : r.id ≠ 0)
    (hnodup : (tx.db.profile.map (fun x => x.id)).Nodup) :
    profileDelete ⟨some r.id, none⟩ tx =
      ({ tx with db := { tx.db with
          profile := tx.db.profile.filter (fun p => p.id != r.id) } }, .ok r) := by
  simp only [profileDelete, Bind.bind, bindE, getDb, modifyDb, pureE, Pure.pure]
  rw [profileFindUnique_of_mem tx.db r hmem hnz hnodup]
  rfl

theorem commentDelete_of_mem (tx : TxState) (r : CommentRecord)
    (hmem : r ∈ tx.db.comment) (hnz : r.id ≠ "")
    (hnodup : (tx.db.comment.map (fun x => x.id)).Nodup) :
    commentDelete ⟨some r.id⟩ tx =
      ({ tx with db := { tx.db with
          comment := tx.db.comment.filter (fun p => p.id != r.id) } }, .ok r) := by
  simp only [commentDelete, Bind.bind, bindE, getDb, modifyDb, pureE, Pure.pure]
  rw [commentFindUnique_of_mem tx.db r hmem hnz hnodup]
  rfl

theorem profileDeleteManyLoop_spec :
    ∀ (rs : List ProfileRecord) (tx : TxState),
      (∀ r ∈ rs, r ∈ tx.db.profile ∧ r.id ≠ 0) →
      (tx.db.profile.map (fun p => p.id)).Nodup →
      (rs.map (fun p => p.id)).Nodup →
      profileDeleteManyLoop rs tx =
        ({ tx with db := { tx.db with profile := tx.db.profile.filter (fun p => decide (¬ p.id ∈ rs.map (fun x => x.id))) } }, .ok ()) := by
  intro rs
  induction rs with
  | nil =>
    intro tx _ _ _
    simp only [profileDeleteManyLoop, pureE, Pure.pure]
    have hsame : tx.db.profile.filter (fun p => decide (¬ p.id ∈ ([] : List ProfileRecord).map
        (fun x => x.id))) = tx.db.profile := by
      simp
    rw [hsame]
  | cons r rest ih =>
    intro tx hsub hnodup hrsnodup
    have hrmem := (hsub r (List.mem_cons_self r rest)).1
    have hrnz := (hsub r (List.mem_cons_self r rest)).2
    have hrsn : (rest.map (fun p => p.id)).Nodup := by
      rw [List.map_cons] at hrsnodup
      exact (List.nodup_cons.mp hrsnodup).2
    have hrid : r.id ∉ rest.map (fun p => p.id) := by
      rw [List.map_cons] at hrsnodup
      exact (List.nodup_cons.mp hrsnodup).1
    simp only [profileDeleteManyLoop, Bind.bind, bindE]
    rw [profileDelete_of_mem tx r hrmem hrnz hnodup]
    dsimp only
    have hc1 : ∀ x ∈ rest,
        x ∈ tx.db.profile.filter (fun p => p.id != r.id) ∧ x.id ≠ 0 := by
      intro x hx
      refine ⟨?_, (hsub x (List.mem_cons_of_mem r hx)).2⟩
      rw [List.mem_filter]
      refine ⟨(hsub x (List.mem_cons_of_mem r hx)).1, ?_⟩
      have hne : x.id ≠ r.id := by
        intro hc
        apply hrid
        rw [← hc]
        exact List.mem_map_of_mem (fun p => p.id) hx
      simpa using hne
    have hc2 : ((tx.db.profile.filter (fun p => p.id != r.id)).map (fun p => p.id)).Nodup := by
      have hsl : List.Sublist
          ((tx.db.profile.filter (fun p => p.id != r.id)).map (fun p => p.id))
          (tx.db.profile.map (fun p => p.id)) :=
        (List.filter_sublist tx.db.profile).map (fun p => p.id)
      exact hnodup.sublist hsl
    rw [ih _ hc1 hc2 hrsn]
    rw [profileFilter_step tx.db.profile r.id (rest.map (fun x => x.id))]
    rfl

theorem commentDeleteManyLoop_spec :
    ∀ (rs : List CommentRecord) (tx : TxState),
      (∀ r ∈ rs, r ∈ tx.db.comment ∧ r.id ≠ "") →
      (tx.db.comment.map (fun p => p.id)).Nodup →
      (rs.map (fun p => p.id)).Nodup →
      commentDeleteManyLoop rs tx =
        ({ tx with db := { tx.db with comment := tx.db.comment.filter (fun p => decide (¬ p.id ∈ rs.map (fun x => x.id))) } }, .ok ()) := by
  intro rs
  induction rs with
  | nil =>
    intro tx _ _ _
    simp only [commentDeleteManyLoop, pureE, Pure.pure]
    have hsame : tx.db.comment.filter (fun p => decide (¬ p.id ∈ ([] : List CommentRecord).map
        (fun x => x.id))) = tx.db.comment := by
      simp
    rw [hsame]
  | cons r rest ih =>
    intro tx hsub hnodup hrsnodup
    have hrmem := (hsub r (List.mem_cons_self r rest)).1
    have hrnz := (hsub r (List.mem_cons_self r rest)).2
    have hrsn : (rest.map (fun p => p.id)).Nodup := by
      rw [List.map_cons] at hrsnodup
      exact (List.nodup_cons.mp hrsnodup).2
    have hrid : r.id ∉ rest.map (fun p => p.id) := by
      rw [List.map_cons] at hrsnodup
      exact (List.nodup_cons.mp hrsnodup).1
    simp only [commentDeleteManyLoop, Bind.bind, bindE]
    rw [commentDelete_of_mem tx r hrmem hrnz hnodup]
    dsimp only
    have hc1 : ∀ x ∈ rest,
        x ∈ tx.db.comment.filter (fun p => p.id != r.id) ∧ x.id ≠ "" := by
      intro x hx
      refine ⟨?_, (hsub x (List.mem_cons_of_mem r hx)).2⟩
      rw [List.mem_filter]
      refine ⟨(hsub x (List.mem_cons_of_mem r hx)).1, ?_⟩
      have hne : x.id ≠ r.id := by
        intro hc
        apply hrid
        rw [← hc]
        exact List.mem_map_of_mem (fun p => p.id) hx
      simpa using hne
    have hc2 : ((tx.db.comment.filter (fun p => p.id != r.id)).map (fun p => p.id)).Nodup := by
      have hsl : List.Sublist
          ((tx.db.comment.filter (fun p => p.id != r.id)).map (fun p => p.id))
          (tx.db.comment.map (fun p => p.id)) :=
        (List.filter_sublist tx.db.comment).map (fun p => p.id)
      exact hnodup.sublist hsl
    rw [ih _ hc1 hc2 hrsn]
    rw [commentFilter_step tx.db.comment r.id (rest.map (fun x => x.id))]
    rfl

theorem userFindUnique_of_mem (db : DB) (u : UserRecord)
    (hmem : u ∈ db.user) (hnz : u.id ≠ 0)
    (hnodup : (db.user.map (fun x => x.id)).Nodup) :
    userFindUnique db ⟨some u.id⟩ = some u := by
  unfold userFindUnique
  simp only []
  rw [if_neg hnz]
  rcases hf : db.user.find? (fun r => r.id == u.id) with _ | r0
  · exfalso
    have := List.find?_eq_none.mp hf u hmem
    simp at this
  · have hr0 : r0.id = u.id := by
      have := List.find?_some hf
      simpa using this
    have hr0mem : r0 ∈ db.user := List.mem_of_find?_eq_some hf
    have heq : r0 = u :=
      List.inj_on_of_nodup_map hnodup hr0mem hmem (by rw [hr0])
    subst heq
    rw [hf]
    simp [userUniqueAsWhere, userWhereMatches, userWhereAllMatch,
      userWhereNoneMatch, strFilterMatches, numFilterMatches]

/-- The where clause `{ userId: uid }` on `Profile` evaluates to equality
of the foreign key. -/
theorem profileWhereMatches_userId (uid : Int) (p : ProfileRecord) :
    profileWhereMatches (.node .nil .nil .nil none (some (.eqv uid)) none) p =
      decide (p.userId = uid) := by
  simp [profileWhereMatches, profileWhereAllMatch, profileWhereNoneMatch,
    strFilterMatches, numFilterMatches]

theorem commentWhereMatches_userId (uid : Int) (c : CommentRecord) :
    commentWhereMatches (.node .nil .nil .nil none none none (some (.eqv uid))) c =
      decide (c.userId = uid) := by
  simp [commentWhereMatches, commentWhereAllMatch, commentWhereNoneMatch,
    strFilterMatches, numFilterMatches]

theorem profileDeleteMany_userId_spec (tx : TxState) (uid : Int)
    (hnodup : (tx.db.profile.map (fun x => x.id)).Nodup)
    (hnz : ∀ p ∈ tx.db.profile, p.id ≠ 0) :
    profileDeleteMany ⟨some (.node .nil .nil .nil none (some (.eqv uid)) none)⟩ tx =
      ({ tx with db := { tx.db with profile := tx.db.profile.filter (fun p => decide (¬ p.userId = uid)) } },
        .ok (tx.db.profile.filter (fun p => decide (p.userId = uid))).length) := by
  have hrs : profileFindMany tx.db ⟨some (.node .nil .nil .nil none (some (.eqv uid)) none)⟩ =
      tx.db.profile.filter (fun p => decide (p.userId = uid)) := by
    unfold profileFindMany profileApplyWhereClause
    apply List.filter_congr
    intro p _
    exact profileWhereMatches_userId uid p
  simp only [profileDeleteMany, Bind.bind, bindE, getDb, pureE, Pure.pure]
  rw [hrs]
  have hc1 : ∀ r ∈ tx.db.profile.filter (fun p => decide (p.userId = uid)),
      r ∈ tx.db.profile ∧ r.id ≠ 0 := by
    intro r hr
    have hm := (List.mem_filter.mp hr).1
    exact ⟨hm, hnz r hm⟩
  have hc3 : ((tx.db.profile.filter (fun p => decide (p.userId = uid))).map
      (fun x => x.id)).Nodup := by
    have hsl : List.Sublist
        ((tx.db.profile.filter (fun p => decide (p.userId = uid))).map (fun x => x.id))
        (tx.db.profile.map (fun x => x.id)) :=
      (List.filter_sublist tx.db.profile).map (fun x => x.id)
    exact hnodup.sublist hsl
  rw [profileDeleteManyLoop_spec _ tx hc1 hnodup hc3]
  have hfe : tx.db.profile.filter
      (fun p => decide (¬ p.id ∈ (tx.db.profile.filter (fun x => decide (x.userId = uid))).map (fun x => x.id))) =
      tx.db.profile.filter (fun p => decide (¬ p.userId = uid)) := by
    apply List.filter_congr
    intro p hp
    have hiff : (p.id ∈ (tx.db.profile.filter (fun x => decide (x.userId = uid))).map (fun x => x.id)) ↔
        p.userId = uid := by
      constructor
      · intro hin
        obtain ⟨q, hq, hqid⟩ := List.mem_map.mp hin
        have hqmem := (List.mem_filter.mp hq).1
        have hqmatch := (List.mem_filter.mp hq).2
        have : q = p := List.inj_on_of_nodup_map hnodup hqmem hp hqid
        subst this
        simpa using hqmatch
      · intro hu
        apply List.mem_map.mpr
        refine ⟨p, List.mem_filter.mpr ⟨hp, by simpa using hu⟩, rfl⟩
    by_cases hu : p.userId = uid
    · simp [hiff, hu]
    · simp [hiff, hu]
  rw [hfe]

theorem commentDeleteMany_userId_spec (tx : TxState) (uid : Int)
    (hnodup : (tx.db.comment.map (fun x => x.id)).Nodup)
    (hnz : ∀ c ∈ tx.db.comment, c.id ≠ "") :
    commentDeleteMany ⟨some (.node .nil .nil .nil none none none (some (.eqv uid)))⟩ tx =
      ({ tx with db := { tx.db with comment := tx.db.comment.filter (fun c => decide (¬ c.userId = uid)) } },
        .ok (tx.db.comment.filter (fun c => decide (c.userId = uid))).length) := by
  have hrs : commentFindMany tx.db ⟨some (.node .nil .nil .nil none none none (some (.eqv uid)))⟩ =
      tx.db.comment.filter (fun c => decide (c.userId = uid)) := by
    unfold commentFindMany commentApplyWhereClause
    apply List.filter_congr
    intro c _
    exact commentWhereMatches_userId uid c
  simp only [commentDeleteMany, Bind.bind, bindE, getDb, pureE, Pure.pure]
  rw [hrs]
  have hc1 : ∀ r ∈ tx.db.comment.filter (fun c => decide (c.userId = uid)),
      r ∈ tx.db.comment ∧ r.id ≠ "" := by
    intro r hr
    have hm := (List.mem_filter.mp hr).1
    exact ⟨hm, hnz r hm⟩
  have hc3 : ((tx.db.comment.filter (fun c => decide (c.userId = uid))).map
      (fun x => x.id)).Nodup := by
    have hsl : List.Sublist
        ((tx.db.comment.filter (fun c => decide (c.userId = uid))).map (fun x => x.id))
        (tx.db.comment.map (fun x => x.id)) :=
      (List.filter_sublist tx.db.comment).map (fun x => x.id)
    exact hnodup.sublist hsl
  rw [commentDeleteManyLoop_spec _ tx hc1 hnodup hc3]
  have hfe : tx.db.comment.filter
      (fun p => decide (¬ p.id ∈ (tx.db.comment.filter (fun x => decide (x.userId = uid))).map (fun x => x.id))) =
      tx.db.comment.filter (fun p => decide (¬ p.userId = uid)) := by
    apply List.filter_congr
    intro p hp
    have hiff : (p.id ∈ (tx.db.comment.filter (fun x => decide (x.userId = uid))).map (fun x => x.id)) ↔
        p.userId = uid := by
      constructor
      · intro hin
        obtain ⟨q, hq, hqid⟩ := List.mem_map.mp hin
        have hqmem := (List.mem_filter.mp hq).1
        have hqmatch := (List.mem_filter.mp hq).2
        have : q = p := List.inj_on_of_nodup_map hnodup hqmem hp hqid
        subst this
        simpa using hqmatch
      · intro hu
        apply List.mem_map.mpr
        refine ⟨p, List.mem_filter.mpr ⟨hp, by simpa using hu⟩, rfl⟩
    by_cases hu : p.userId = uid
    · simp [hiff, hu]
    · simp [hiff, hu]
  rw [hfe]

theorem userDelete_spec (tx : TxState) (u : UserRecord)
    (hmem : u ∈ tx.db.user) (hnz : u.id ≠ 0)
    (hunodup : (tx.db.user.map (fun x => x.id)).Nodup)
    (hpnodup : (tx.db.profile.map (fun x => x.id)).Nodup)
    (hpnz : ∀ p ∈ tx.db.profile, p.id ≠ 0)
    (hcnodup : (tx.db.comment.map (fun x => x.id)).Nodup)
    (hcnz : ∀ c ∈ tx.db.comment, c.id ≠ "") :
    userDelete ⟨some u.id⟩ tx =
      ({ tx with db := { user := tx.db.user.filter (fun x => x.id != u.id), profile := tx.db.profile.filter (fun p => decide (¬ p.userId = u.id)), post := tx.db.post, comment := tx.db.comment.filter (fun c => decide (¬ c.userId = u.id)) } },
        .ok u) := by
  simp only [userDelete, Bind.bind, bindE, getDb, modifyDb, pureE, Pure.pure]
  rw [userFindUnique_of_mem tx.db u hmem hnz hunodup]
  dsimp only
  simp only [bindE]
  rw [profileDeleteMany_userId_spec tx u.id hpnodup hpnz]
  dsimp only
  have hstep := commentDeleteMany_userId_spec
    ({ tx with db := { tx.db with profile := tx.db.profile.filter (fun p => decide (¬ p.userId = u.id)) } })
    u.id (by exact hcnodup) (by exact hcnz)
  rw [hstep]
  rfl

/-! ### Claim-supporting helper lemmas -/

theorem putList_map_id {α : Type} (key : α → Int) (r : α) (l : List α)
    (h : l.any (fun x => key x == key r) = true) :
    (putList key r l).map key = l.map key := by
  unfold putList
  rw [if_pos h, List.map_map]
  apply List.map_congr_left
  intro a _
  by_cases ha : key a = key r
  · simp [Function.comp, ha]
  · simp [Function.comp, ha]

theorem postWhereMatches_authorId (uid : Int) (p : PostRecord) :
    postWhereMatches (.node .nil .nil .nil none none (some (.eqv uid))) p =
      decide (p.authorId = some uid) := by
  simp [postWhereMatches, postWhereAllMatch, postWhereNoneMatch,
    strFilterMatches, numFilterMatches]

theorem postWhereWithAuthorId_false (w : PostWhere) (uid : Int) (p : PostRecord)
    (hne : p.authorId ≠ some uid) :
    postWhereMatches (postWhereWithAuthorId w (.eqv uid)) p = false := by
  cases w with
  | node a o nt i t au =>
    simp [postWhereWithAuthorId, postWhereMatches, numFilterMatches, hne]

theorem postWhereNotWithAuthorId_false (w : PostWhere) (uid : Int) (p : PostRecord)
    (hne : p.authorId ≠ some uid) :
    postWhereMatches (postWhereNotWithAuthorId w (.eqv uid)) p = false := by
  simp [postWhereNotWithAuthorId, postWhereMatches, postWhereAllMatch,
    postWhereNoneMatch, numFilterMatches, strFilterMatches, hne]

theorem commentWhereWithUserId_false (w : CommentWhere) (uid : Int) (c : CommentRecord)
    (hne : c.userId ≠ uid) :
    commentWhereMatches (commentWhereWithUserId w (.eqv uid)) c = false := by
  cases w with
  | node a o nt i t pid _ =>
    simp [commentWhereWithUserId, commentWhereMatches, numFilterMatches, hne]

theorem commentWhereNotWithUserId_false (w : CommentWhere) (uid : Int) (c : CommentRecord)
    (hne : c.userId ≠ uid) :
    commentWhereMatches (commentWhereNotWithUserId w (.eqv uid)) c = false := by
  simp [commentWhereNotWithUserId, commentWhereMatches, commentWhereAllMatch,
    commentWhereNoneMatch, numFilterMatches, strFilterMatches, hne]

/-! ## Claim theorems -/

/-- Claim C9: for a create payload with no primary-key value, a
numeric-keyed entity (`User`, via `_fillDefaults`) is assigned `1` on an
empty table and otherwise one greater than the current maximum key (the
key-descending cursor's first record); a string-keyed entity (`Comment`)
is assigned the identifier produced by the external collision-resistant
cuid generator (`createId()`), modelled as the generator stream carried by
the transaction state. -/
theorem c9_default_primary_keys :
    (∀ (db : DB) (d : UserCreateData), userCreateId d = none → db.user = [] →
      userCreateId (userFillDefaults db d) = some 1)
  ∧ (∀ (db : DB) (d : UserCreateData), userCreateId d = none → db.user ≠ [] →
      ∃ m, userCreateId (userFillDefaults db d) = some (m + 1) ∧
        (∃ r, r ∈ db.user ∧ r.id = m) ∧ (∀ r ∈ db.user, r.id ≤ m))
  ∧ (∀ (tx : TxState) (cd : CommentCreateData), commentCreateId cd = none →
      ∃ cd', commentFillDefaults cd tx = ({ tx with genIdx := tx.genIdx + 1 }, .ok cd') ∧
        commentCreateId cd' = some (tx.gen tx.genIdx)) := by
  refine ⟨?_, ?_, ?_⟩
  · intro db d hid hempty
    cases d with
    | mk id name profile posts comments =>
      simp only [userCreateId] at hid
      subst hid
      simp [userFillDefaults, userCreateId, userMaxKey, hempty, maxIntList]
  · intro db d hid hne
    cases d with
    | mk id name profile posts comments =>
      simp only [userCreateId] at hid
      subst hid
      rcases maxIntList_spec (db.user.map (fun r => r.id)) with ⟨hnil, _⟩ | ⟨m, hm, hmem, hle⟩
      · exfalso
        apply hne
        cases hu : db.user with
        | nil => rfl
        | cons a t => rw [hu] at hnil; simp at hnil
      · refine ⟨m, ?_, ?_, ?_⟩
        · simp [userFillDefaults, userCreateId, userMaxKey, hm]
        · obtain ⟨r, hr, hrid⟩ := List.mem_map.mp hmem
          exact ⟨r, hr, hrid⟩
        · intro r hr
          exact hle r.id (List.mem_map_of_mem (fun x => x.id) hr)
  · intro tx cd hid
    cases cd with
    | mk id post postId user userId text =>
      simp only [commentCreateId] at hid
      subst hid
      refine ⟨.mk (some (tx.gen tx.genIdx)) post postId user userId text, ?_, rfl⟩
      simp [commentFillDefaults, Bind.bind, bindE, nextCuid, pureE, Pure.pure]

/-- Witness for C9 at concrete inputs: an empty `User` table assigns key
1, a table with maximum key 5 assigns `5 + 1`, and a `Comment` payload
without an id is assigned the generator's next output. -/
theorem c9_default_primary_keys_witness :
    userCreateId (userFillDefaults ⟨[], [], [], []⟩ (.mk none "a" none none none)) = some 1
  ∧ (∃ m, userCreateId (userFillDefaults ⟨[⟨5, "x"⟩], [], [], []⟩ (.mk none "a" none none none)) =
      some (m + 1) ∧ (∃ r, r ∈ ([⟨5, "x"⟩] : List UserRecord) ∧ r.id = m) ∧
      (∀ r ∈ ([⟨5, "x"⟩] : List UserRecord), r.id ≤ m))
  ∧ (∃ cd', commentFillDefaults (.mk none none none none none "t")
        ⟨⟨[], [], [], []⟩, false, [], (fun _ => "cuid0"), 0⟩ =
      ({ db := ⟨[], [], [], []⟩, aborted := false, events := [], gen := (fun _ => "cuid0"), genIdx := 1 }, .ok cd') ∧
      commentCreateId cd' = some ((fun _ : Nat => "cuid0") 0)) :=
  ⟨c9_default_primary_keys.1 ⟨[], [], [], []⟩ (.mk none "a" none none none) rfl rfl,
   c9_default_primary_keys.2.1 ⟨[⟨5, "x"⟩], [], [], []⟩ (.mk none "a" none none none) rfl
     (by decide),
   c9_default_primary_keys.2.2 ⟨⟨[], [], [], []⟩, false, [], (fun _ => "cuid0"), 0⟩
     (.mk none none none none none "t") rfl⟩

/-- Claim C10: `count` with a `select` naming specific fields returns, for
each named field, the number of records in the whole table whose field is
non-null — computed with `{ [field]: { not: null } }` and ignoring the
call's `where` clause; only the `_all` entry and the plain number form of
`count` apply the `where` clause. -/
theorem c10_count_select_ignores_where (db : DB) (w : Option PostWhere) :
    postCountEntry db w .id = db.post.length
  ∧ postCountEntry db w .title = db.post.length
  ∧ postCountEntry db w .authorId = (db.post.filter (fun p => p.authorId.isSome)).length
  ∧ postCountEntry db w .all = (postFindMany db ⟨w⟩).length
  ∧ postCount db w none = .num (postFindMany db ⟨w⟩).length
  ∧ (∀ keys, postCount db w (some keys) =
      .table (keys.map (fun k => (k, postCountEntry db w k)))) := by
  refine ⟨?_, ?_, ?_, rfl, rfl, fun keys => rfl⟩
  · simp only [postCountEntry, postFindMany, postApplyWhereClause, List.length_map]
    have hall : db.post.filter
        (fun r => postWhereMatches (postCountNotNullWhere .id) r) = db.post := by
      apply List.filter_eq_self.mpr
      intro p _
      simp [postCountNotNullWhere, postWhereMatches, postWhereAllMatch,
        postWhereNoneMatch, strFilterMatches, numFilterMatches]
    rw [hall]
  · simp only [postCountEntry, postFindMany, postApplyWhereClause, List.length_map]
    have hall : db.post.filter
        (fun r => postWhereMatches (postCountNotNullWhere .title) r) = db.post := by
      apply List.filter_eq_self.mpr
      intro p _
      simp [postCountNotNullWhere, postWhereMatches, postWhereAllMatch,
        postWhereNoneMatch, strFilterMatches, numFilterMatches]
    rw [hall]
  · simp only [postCountEntry, postFindMany, postApplyWhereClause, List.length_map]
    have hcongr : db.post.filter
        (fun r => postWhereMatches (postCountNotNullWhere .authorId) r) =
        db.post.filter (fun p => p.authorId.isSome) := by
      apply List.filter_congr
      intro p _
      cases hp : p.authorId <;>
        simp [postCountNotNullWhere, postWhereMatches, postWhereAllMatch,
          postWhereNoneMatch, strFilterMatches, numFilterMatches, hp]
    rw [hcongr]

/-- Claim C7: for a parent with zero children of a to-many relation, the
relation quantifiers evaluate via scoped sub-queries over the child table
(foreign key = parent key): `every` is vacuously true, `some` is false,
`none` is vacuously true — shown for both `posts` and `comments` on
`User`. -/
theorem c7_quantifiers_on_empty_children (db : DB) (u : UserRecord)
    (hp : ∀ p ∈ db.post, p.authorId ≠ some u.id)
    (hc : ∀ c ∈ db.comment, c.userId ≠ u.id) :
    (∀ e n : PostWhere, userWhereMatches db
      (.node .nil .nil .nil none none (some ⟨some e, none, some n⟩) none) u = true)
  ∧ (∀ s : PostWhere, userWhereMatches db
      (.node .nil .nil .nil none none (some ⟨none, some s, none⟩) none) u = false)
  ∧ (∀ e n : CommentWhere, userWhereMatches db
      (.node .nil .nil .nil none none none (some ⟨some e, none, some n⟩)) u = true)
  ∧ (∀ s : CommentWhere, userWhereMatches db
      (.node .nil .nil .nil none none none (some ⟨none, some s, none⟩)) u = false) := by
  have hpost : ∀ w : PostWhere,
      db.post.filter (fun p => postWhereMatches (postWhereWithAuthorId w (.eqv u.id)) p) = [] := by
    intro w
    apply List.filter_eq_nil_iff.mpr
    intro p hmem
    simp [postWhereWithAuthorId_false w u.id p (hp p hmem)]
  have hpostNot : ∀ w : PostWhere,
      db.post.filter (fun p => postWhereMatches (postWhereNotWithAuthorId w (.eqv u.id)) p) = [] := by
    intro w
    apply List.filter_eq_nil_iff.mpr
    intro p hmem
    simp [postWhereNotWithAuthorId_false w u.id p (hp p hmem)]
  have hcomm : ∀ w : CommentWhere,
      db.comment.filter (fun c => commentWhereMatches (commentWhereWithUserId w (.eqv u.id)) c) = [] := by
    intro w
    apply List.filter_eq_nil_iff.mpr
    intro c hmem
    simp [commentWhereWithUserId_false w u.id c (hc c hmem)]
  have hcommNot : ∀ w : CommentWhere,
      db.comment.filter (fun c => commentWhereMatches (commentWhereNotWithUserId w (.eqv u.id)) c) = [] := by
    intro w
    apply List.filter_eq_nil_iff.mpr
    intro c hmem
    simp [commentWhereNotWithUserId_false w u.id c (hc c hmem)]
  refine ⟨?_, ?_, ?_, ?_⟩
  · intro e n
    simp [userWhereMatches, userWhereAllMatch, userWhereNoneMatch, strFilterMatches,
      numFilterMatches, postFindFirst, postFindMany, postApplyWhereClause,
      hpost n, hpostNot e]
  · intro s
    simp [userWhereMatches, userWhereAllMatch, userWhereNoneMatch, strFilterMatches,
      numFilterMatches, postFindFirst, postFindMany, postApplyWhereClause, hpost s]
  · intro e n
    simp [userWhereMatches, userWhereAllMatch, userWhereNoneMatch, strFilterMatches,
      numFilterMatches, commentFindFirst, commentFindMany, commentApplyWhereClause,
      hcomm n, hcommNot e]
  · intro s
    simp [userWhereMatches, userWhereAllMatch, userWhereNoneMatch, strFilterMatches,
      numFilterMatches, commentFindFirst, commentFindMany, commentApplyWhereClause, hcomm s]

/-- Witness for C7: a user with id 1 owning no posts and no comments
(the child tables hold rows of another user). -/
theorem c7_quantifiers_on_empty_children_witness :
    userWhereMatches ⟨[⟨1, "u"⟩], [], [⟨7, "p", some 2, none, none⟩], [⟨"c1", 7, 2, "t"⟩]⟩
      (.node .nil .nil .nil none none
        (some ⟨some (.node .nil .nil .nil none none none), none,
          some (.node .nil .nil .nil none none none)⟩) none) ⟨1, "u"⟩ = true
  ∧ userWhereMatches ⟨[⟨1, "u"⟩], [], [⟨7, "p", some 2, none, none⟩], [⟨"c1", 7, 2, "t"⟩]⟩
      (.node .nil .nil .nil none none
        (some ⟨none, some (.node .nil .nil .nil none none none), none⟩) none) ⟨1, "u"⟩ = false :=
  ⟨(c7_quantifiers_on_empty_children
      ⟨[⟨1, "u"⟩], [], [⟨7, "p", some 2, none, none⟩], [⟨"c1", 7, 2, "t"⟩]⟩ ⟨1, "u"⟩
      (by decide) (by decide)).1
        (.node .nil .nil .nil none none none) (.node .nil .nil .nil none none none),
   (c7_quantifiers_on_empty_children
      ⟨[⟨1, "u"⟩], [], [⟨7, "p", some 2, none, none⟩], [⟨"c1", 7, 2, "t"⟩]⟩ ⟨1, "u"⟩
      (by decide) (by decide)).2.1 (.node .nil .nil .nil none none none)⟩

/-- Claim C1 (amended): `User.delete` removes the user's `Profile` and
`Comment` rows (so scoped `findMany` on those tables returns `[]`) but
performs no handling of `Post` at all — the post table is untouched, and
a scoped `findMany` on `Post` with the deleted user's id as the
foreign-key filter returns exactly the user's original posts, not an
empty sequence. The original claim, that every cascade-designated child
including posts is removed and the scoped Post `findMany` returns `[]`,
is false: `Post.author` carries no cascade in the schema and `delete`
iterates only the `profileRelated`/`commentRelated` stores. -/
theorem c1_delete_cascade (tx : TxState) (u : UserRecord)
    (hmem : u ∈ tx.db.user) (hnz : u.id ≠ 0)
    (hunodup : (tx.db.user.map (fun x => x.id)).Nodup)
    (hpnodup : (tx.db.profile.map (fun x => x.id)).Nodup)
    (hpnz : ∀ p ∈ tx.db.profile, p.id ≠ 0)
    (hcnodup : (tx.db.comment.map (fun x => x.id)).Nodup)
    (hcnz : ∀ c ∈ tx.db.comment, c.id ≠ "") :
    (userDelete ⟨some u.id⟩ tx).2 = .ok u
  ∧ profileFindMany (userDelete ⟨some u.id⟩ tx).1.db
      ⟨some (.node .nil .nil .nil none (some (.eqv u.id)) none)⟩ = []
  ∧ commentFindMany (userDelete ⟨some u.id⟩ tx).1.db
      ⟨some (.node .nil .nil .nil none none none (some (.eqv u.id)))⟩ = []
  ∧ (userDelete ⟨some u.id⟩ tx).1.db.post = tx.db.post
  ∧ postFindMany (userDelete ⟨some u.id⟩ tx).1.db
      ⟨some (.node .nil .nil .nil none none (some (.eqv u.id)))⟩ =
      (tx.db.post.filter (fun p => decide (p.authorId = some u.id))).map
        postPreprocessListFields := by
  rw [userDelete_spec tx u hmem hnz hunodup hpnodup hpnz hcnodup hcnz]
  refine ⟨rfl, ?_, ?_, rfl, ?_⟩
  · simp only [profileFindMany, profileApplyWhereClause, List.filter_filter]
    apply List.filter_eq_nil_iff.mpr
    intro p _
    rw [profileWhereMatches_userId]
    by_cases hp : p.userId = u.id <;> simp [hp]
  · simp only [commentFindMany, commentApplyWhereClause, List.filter_filter]
    apply List.filter_eq_nil_iff.mpr
    intro c _
    rw [commentWhereMatches_userId]
    by_cases hc : c.userId = u.id <;> simp [hc]
  · simp only [postFindMany, postApplyWhereClause]
    have hfc : tx.db.post.filter
        (fun r => postWhereMatches (.node .nil .nil .nil none none (some (.eqv u.id))) r) =
        tx.db.post.filter (fun p => decide (p.authorId = some u.id)) := by
      apply List.filter_congr
      intro p _
      rw [postWhereMatches_authorId]
    rw [hfc]

/-- Witness for C1 at a concrete state: user 1 with a profile, a post and
a comment; after delete the scoped Profile and Comment queries are empty,
the post table is unchanged, and the scoped Post query returns the post. -/
theorem c1_delete_cascade_witness :
    (userDelete ⟨some (1 : Int)⟩
        ⟨⟨[⟨1, "u"⟩], [⟨1, some "b", 1⟩], [⟨1, "p", some 1, none, none⟩],
          [⟨"c1", 1, 1, "t"⟩]⟩, false, [], (fun _ => "g"), 0⟩).2 = .ok ⟨1, "u"⟩
  ∧ profileFindMany (userDelete ⟨some (1 : Int)⟩
        ⟨⟨[⟨1, "u"⟩], [⟨1, some "b", 1⟩], [⟨1, "p", some 1, none, none⟩],
          [⟨"c1", 1, 1, "t"⟩]⟩, false, [], (fun _ => "g"), 0⟩).1.db
      ⟨some (.node .nil .nil .nil none (some (.eqv 1)) none)⟩ = []
  ∧ commentFindMany (userDelete ⟨some (1 : Int)⟩
        ⟨⟨[⟨1, "u"⟩], [⟨1, some "b", 1⟩], [⟨1, "p", some 1, none, none⟩],
          [⟨"c1", 1, 1, "t"⟩]⟩, false, [], (fun _ => "g"), 0⟩).1.db
      ⟨some (.node .nil .nil .nil none none none (some (.eqv 1)))⟩ = []
  ∧ (userDelete ⟨some (1 : Int)⟩
        ⟨⟨[⟨1, "u"⟩], [⟨1, some "b", 1⟩], [⟨1, "p", some 1, none, none⟩],
          [⟨"c1", 1, 1, "t"⟩]⟩, false, [], (fun _ => "g"), 0⟩).1.db.post =
      [⟨1, "p", some 1, none, none⟩]
  ∧ postFindMany (userDelete ⟨some (1 : Int)⟩
        ⟨⟨[⟨1, "u"⟩], [⟨1, some "b", 1⟩], [⟨1, "p", some 1, none, none⟩],
          [⟨"c1", 1, 1, "t"⟩]⟩, false, [], (fun _ => "g"), 0⟩).1.db
      ⟨some (.node .nil .nil .nil none none (some (.eqv 1)))⟩ =
      (([⟨1, "p", some 1, none, none⟩] : List PostRecord).filter
        (fun p => decide (p.authorId = some (1 : Int)))).map postPreprocessListFields := by
  have h := c1_delete_cascade
    ⟨⟨[⟨1, "u"⟩], [⟨1, some "b", 1⟩], [⟨1, "p", some 1, none, none⟩],
      [⟨"c1", 1, 1, "t"⟩]⟩, false, [], (fun _ => "g"), 0⟩ ⟨1, "u"⟩
    (by decide) (by decide) (by decide) (by decide) (by decide) (by decide)
    (by intro c hc; fin_cases hc; decide)
  exact h

/-- Counterexample to C1 as stated: in the concrete state above (user 1
with one post authored by them), after `delete({where: {id: 1}})` the
scoped `findMany` on `Post` filtered by `authorId = 1` is NOT the empty
sequence — the post survives the delete. -/
theorem c1_counterexample :
    ¬ (postFindMany (userDelete ⟨some (1 : Int)⟩
        ⟨⟨[⟨1, "u"⟩], [⟨1, some "b", 1⟩], [⟨1, "p", some 1, none, none⟩],
          [⟨"c1", 1, 1, "t"⟩]⟩, false, [], (fun _ => "g"), 0⟩).1.db
      ⟨some (.node .nil .nil .nil none none (some (.eqv 1)))⟩ = []) := by
  decide

/-- Claim C2 (amended): `connectOrCreate` always raises
`UnsupportedOperation`, but whether any mutation precedes the throw
depends on the side of the relation. On the owning side (dependency
resolved before the row is added — here `Profile.create` with a nested
`user.connectOrCreate`) the throw happens before any row is written and
the state is completely unchanged. On the non-owning side (dependents
handled after the row is added — here `User.create` with a nested
`profile.connectOrCreate`) the parent row has already been appended to
its table when the error is thrown, so the original claim's "no row has
been added to any table by that call" is false. -/
theorem c2_connect_or_create (n : Nat) (tx : TxState) :
    (∀ (id : Option Int) (bio : Option String) (userId : Option Int),
      profileCreate (n+1) (.mk id bio (some (.mk none none true)) userId) tx =
        (tx, .error .unsupported))
  ∧ (∀ (id : Option Int) (name : String),
      userCreate (n+1) (.mk id name (some (.mk none none true)) none none) tx =
        ({ tx with db := { tx.db with user := tx.db.user ++
            [toUserRecord (userFillDefaults tx.db
              (.mk id name (some (.mk none none true)) none none))] } },
          .error .unsupported)) := by
  constructor
  · intro id bio userId
    simp [profileCreate, Bind.bind, bindE, pureE, throwE, Pure.pure]
  · intro id name
    simp [userCreate, Bind.bind, bindE, getDb, addUserRecord, pureE, throwE, Pure.pure]

/-- Counterexample to C2 as stated: creating a user with
`profile: { connectOrCreate: ... }` on an empty database raises
`UnsupportedOperation`, yet at that point the `User` row has already been
added — the user table of the resulting state is not empty. -/
theorem c2_counterexample :
    (userCreate 5 (.mk none "John" (some (.mk none none true)) none none)
        ⟨⟨[], [], [], []⟩, false, [], (fun _ => "g"), 0⟩).2 = .error .unsupported
  ∧ ¬ ((userCreate 5 (.mk none "John" (some (.mk none none true)) none none)
        ⟨⟨[], [], [], []⟩, false, [], (fun _ => "g"), 0⟩).1.db.user = []) := by
  decide

/-- Full behaviour of `update` when the data does not patch the key: the
located record is patched on `name`, `put` replaces it in place, and the
re-read returns the patched record. -/
theorem userUpdate_noid_spec (tx : TxState) (q : UserUpdateQuery)
    (hid : q.data.id = none)
    (hnodup : (tx.db.user.map (fun x => x.id)).Nodup)
    (r : UserRecord) (hfind : userFindUnique tx.db q.whereU = some r) :
    userUpdate q tx =
      ({ tx with db := { tx.db with user := putList (fun x => x.id) ({ id := r.id, name := handleStringUpdateFieldReq r.name q.data.name } : UserRecord) tx.db.user } },
        .ok { id := r.id, name := handleStringUpdateFieldReq r.name q.data.name }) := by
  obtain ⟨hwid, hmem, hnz⟩ := userFindUnique_some tx.db q.whereU r hfind
  simp only [userUpdate, Bind.bind, bindE, getDb]
  rw [hfind]
  dsimp only
  rw [hid]
  simp only [handleIntUpdateFieldReq, putUserRecord]
  have hany : tx.db.user.any (fun x => x.id == ({ id := r.id, name := handleStringUpdateFieldReq r.name q.data.name } : UserRecord).id) = true :=
    List.any_eq_true.mpr ⟨r, hmem, by simp⟩
  have hmem2 : ({ id := r.id, name := handleStringUpdateFieldReq r.name q.data.name } : UserRecord) ∈ putList (fun x => x.id) ({ id := r.id, name := handleStringUpdateFieldReq r.name q.data.name } : UserRecord) tx.db.user := by
    unfold putList
    rw [if_pos hany]
    have := List.mem_map_of_mem (fun x : UserRecord => if x.id == ({ id := r.id, name := handleStringUpdateFieldReq r.name q.data.name } : UserRecord).id then ({ id := r.id, name := handleStringUpdateFieldReq r.name q.data.name } : UserRecord) else x) hmem
    simpa using this
  have hnodup2 : ((putList (fun x => x.id) ({ id := r.id, name := handleStringUpdateFieldReq r.name q.data.name } : UserRecord) tx.db.user).map (fun x => x.id)).Nodup := by
    rw [putList_map_id (fun x : UserRecord => x.id) ({ id := r.id, name := handleStringUpdateFieldReq r.name q.data.name } : UserRecord) tx.db.user hany]
    exact hnodup
  have huf2 := userFindUnique_of_mem
    { tx.db with user := putList (fun x => x.id) ({ id := r.id, name := handleStringUpdateFieldReq r.name q.data.name } : UserRecord) tx.db.user }
    ({ id := r.id, name := handleStringUpdateFieldReq r.name q.data.name } : UserRecord)
    hmem2 (by exact hnz) (by exact hnodup2)
  simp only [bindE, putUserRecord, getDb]
  rw [huf2]
  rfl

/-- Claim C3 (amended): `update` re-persists under the unchanged key only
when the update data does not target the primary-key field itself. For
every update whose data leaves `id` unpatched (on a store with distinct
keys), the key sequence of the store is unchanged and a successful
result's key equals the unique selector's key. The original claim — that
no sequence of updates can ever change a record's primary key — is
false: the generated update patches `id` like any other `Int` field and
then `put`s the record under the new key. -/
theorem c3_update_unchanged_key (tx : TxState) (q : UserUpdateQuery)
    (hid : q.data.id = none)
    (hnodup : (tx.db.user.map (fun x => x.id)).Nodup) :
    ((userUpdate q tx).1.db.user.map (fun x => x.id)) =
      (tx.db.user.map (fun x => x.id))
  ∧ (∀ rr, (userUpdate q tx).2 = .ok rr → q.whereU.id = some rr.id) := by
  cases hfind : userFindUnique tx.db q.whereU with
  | none =>
    constructor
    · simp [userUpdate, Bind.bind, bindE, getDb, hfind, abortThrowE]
    · intro rr hrr
      simp [userUpdate, Bind.bind, bindE, getDb, hfind, abortThrowE] at hrr
  | some r =>
    obtain ⟨hwid, hmem, _⟩ := userFindUnique_some tx.db q.whereU r hfind
    rw [userUpdate_noid_spec tx q hid hnodup r hfind]
    have hany : tx.db.user.any (fun x => x.id == ({ id := r.id, name := handleStringUpdateFieldReq r.name q.data.name } : UserRecord).id) = true :=
      List.any_eq_true.mpr ⟨r, hmem, by simp⟩
    constructor
    · exact putList_map_id (fun x : UserRecord => x.id) ({ id := r.id, name := handleStringUpdateFieldReq r.name q.data.name } : UserRecord) tx.db.user hany
    · intro rr hrr
      injection hrr with hrr
      subst hrr
      exact hwid

/-- Witness for C3: renaming user 1 keeps the key sequence `[1]` and any
successful result's key equals the selector's key 1. -/
theorem c3_update_unchanged_key_witness :
    ((userUpdate ⟨⟨some 1⟩, ⟨some (.setv "b"), none⟩⟩
        ⟨⟨[⟨1, "a"⟩], [], [], []⟩, false, [], (fun _ => "g"), 0⟩).1.db.user.map
          (fun x => x.id)) =
      (([⟨1, "a"⟩] : List UserRecord).map (fun x => x.id))
  ∧ (∀ rr, (userUpdate ⟨⟨some 1⟩, ⟨some (.setv "b"), none⟩⟩
        ⟨⟨[⟨1, "a"⟩], [], [], []⟩, false, [], (fun _ => "g"), 0⟩).2 = .ok rr →
      (⟨some 1⟩ : UserUniqueWhere).id = some rr.id) :=
  c3_update_unchanged_key
    ⟨⟨[⟨1, "a"⟩], [], [], []⟩, false, [], (fun _ => "g"), 0⟩
    ⟨⟨some 1⟩, ⟨some (.setv "b"), none⟩⟩ rfl (by decide)

/-- Counterexample to C3 as stated: updating user 1 with
`data: { id: 2 }` succeeds and returns a record whose key is 2 — an
update changed the primary key of an existing record (and, since `put`
under the new key inserts rather than replaces, the store afterwards
holds both the old row under key 1 and the patched row under key 2). -/
theorem c3_counterexample :
    (userUpdate ⟨⟨some 1⟩, ⟨none, some (.setv 2)⟩⟩
        ⟨⟨[⟨1, "a"⟩], [], [], []⟩, false, [], (fun _ => "g"), 0⟩).2 = .ok ⟨2, "a"⟩
  ∧ (userUpdate ⟨⟨some 1⟩, ⟨none, some (.setv 2)⟩⟩
        ⟨⟨[⟨1, "a"⟩], [], [], []⟩, false, [], (fun _ => "g"), 0⟩).1.db.user =
      [⟨1, "a"⟩, ⟨2, "a"⟩] := by
  decide

/-- Claim C5 (amended): on a NotFound failure, `findUniqueOrThrow`,
`findFirstOrThrow` and `update` abort the active transaction (setting the
abort flag, which rolls back its writes on commit) and propagate the
error — but `delete` with a selector matching nothing only throws, without
aborting: the transaction state is returned unchanged, so writes already
performed in the same transaction still commit. The original claim, that
every NotFound failure aborts the transaction and rolls back its writes,
is false for `delete`. -/
theorem c5_notfound_abort (tx : TxState) :
    (∀ w : UserUniqueWhere, userFindUnique tx.db w = none →
      userFindUniqueOrThrow w tx = ({ tx with aborted := true }, .error .notFound))
  ∧ (∀ q : UserFindQuery, userFindFirst tx.db q = none →
      userFindFirstOrThrow q tx = ({ tx with aborted := true }, .error .notFound))
  ∧ (∀ q : UserUpdateQuery, userFindUnique tx.db q.whereU = none →
      userUpdate q tx = ({ tx with aborted := true }, .error .notFound))
  ∧ (∀ w : UserUniqueWhere, userFindUnique tx.db w = none →
      userDelete w tx = (tx, .error .notFound)) := by
  refine ⟨?_, ?_, ?_, ?_⟩
  · intro w h
    simp [userFindUniqueOrThrow, Bind.bind, bindE, getDb, h, abortThrowE]
  · intro q h
    simp [userFindFirstOrThrow, Bind.bind, bindE, getDb, h, abortThrowE]
  · intro q h
    simp [userUpdate, Bind.bind, bindE, getDb, h, abortThrowE]
  · intro w h
    simp [userDelete, Bind.bind, bindE, getDb, h, throwE]

/-- Witness for C5 on an empty database: each of the four operations with
selector `{id: 7}` (or an unrestricted findFirst) hits NotFound; the
first three abort, delete does not. -/
theorem c5_notfound_abort_witness :
    userFindUniqueOrThrow ⟨some 7⟩ ⟨⟨[], [], [], []⟩, false, [], (fun _ => "g"), 0⟩ =
      ({ db := ⟨[], [], [], []⟩, aborted := true, events := [], gen := (fun _ => "g"), genIdx := 0 }, .error .notFound)
  ∧ userFindFirstOrThrow ⟨none, none⟩ ⟨⟨[], [], [], []⟩, false, [], (fun _ => "g"), 0⟩ =
      ({ db := ⟨[], [], [], []⟩, aborted := true, events := [], gen := (fun _ => "g"), genIdx := 0 }, .error .notFound)
  ∧ userUpdate ⟨⟨some 7⟩, ⟨none, none⟩⟩ ⟨⟨[], [], [], []⟩, false, [], (fun _ => "g"), 0⟩ =
      ({ db := ⟨[], [], [], []⟩, aborted := true, events := [], gen := (fun _ => "g"), genIdx := 0 }, .error .notFound)
  ∧ userDelete ⟨some 7⟩ ⟨⟨[], [], [], []⟩, false, [], (fun _ => "g"), 0⟩ =
      (⟨⟨[], [], [], []⟩, false, [], (fun _ => "g"), 0⟩, .error .notFound) :=
  ⟨(c5_notfound_abort ⟨⟨[], [], [], []⟩, false, [], (fun _ => "g"), 0⟩).1 ⟨some 7⟩ (by decide),
   (c5_notfound_abort ⟨⟨[], [], [], []⟩, false, [], (fun _ => "g"), 0⟩).2.1 ⟨none, none⟩ (by decide),
   (c5_notfound_abort ⟨⟨[], [], [], []⟩, false, [], (fun _ => "g"), 0⟩).2.2.1 ⟨⟨some 7⟩, ⟨none, none⟩⟩ (by decide),
   (c5_notfound_abort ⟨⟨[], [], [], []⟩, false, [], (fun _ => "g"), 0⟩).2.2.2 ⟨some 7⟩ (by decide)⟩

/-- Counterexample to C5 as stated: in one transaction, create user 1
then delete user 99 (which does not exist). The delete raises NotFound,
yet because `delete` never aborts the transaction, the create's write is
NOT rolled back — the committed database still contains user 1. -/
theorem c5_counterexample :
    (commitRun (bindE (userCreate 2 (.mk none "John" none none none))
        (fun _ => userDelete ⟨some 99⟩)) ⟨[], [], [], []⟩ (fun _ => "g")).2 =
      .error .notFound
  ∧ ¬ ((commitRun (bindE (userCreate 2 (.mk none "John" none none none))
        (fun _ => userDelete ⟨some 99⟩)) ⟨[], [], [], []⟩ (fun _ => "g")).1.user = []) := by
  decide

/-- Claim C8 (amended): the scope analyzer's orderBy branch hands the
*whole* clause of the outer entity to the related entity's walk
(`{ orderBy: orderBy_post }`, where `orderBy_post` is the comment-level
clause found by `orderBy.find((clause) => clause.post)`), not the nested
sub-clause. Consequently a Comment query ordered by `{post: …}` always
computes exactly `{Comment, Post}` — whatever the nested clause contains.
The original claim is false: a relation reachable only through another
relation's orderBy (ordering Comment by `post.author`) does NOT
contribute its target table, because the post walk inspects the
comment-level clause (whose `author` key is absent) instead of the
nested post clause. -/
theorem c8_orderby_walk (n : Nat) (cp : GOrderBy) :
    commentStoresForFind (n+2)
        (.mk none (some [.mk none none none none none none (some cp) none]) none none) =
      {StoreName.Comment, StoreName.Post} := by
  have hw : ∀ m, postStoresForWhere m (none : Option GWhere) = ∅ := by
    intro m; cases m <;> rfl
  have hwc : ∀ m, commentStoresForWhere m (none : Option GWhere) = ∅ := by
    intro m; cases m <;> rfl
  simp only [commentStoresForFind, postStoresForFind, hw, hwc,
    gOrderByPost, gOrderByUser, gOrderByAuthor, gOrderByComments,
    gSelPost, gSelUser, gSelAuthor, gSelComments, gSelTruthy, gSelObj,
    List.find?, Option.isSome]
  ext s
  cases s <;> simp

/-- Counterexample to C8 as stated: for the query
`comment.findMany({orderBy: {post: {author: {name: "asc"}}}})` — a
relation (`User`, via `post.author`) reachable only through the orderBy
of another relation — the computed store set does not contain `"User"`,
at any ample fuel. -/
theorem c8_counterexample :
    StoreName.User ∉ commentStoresForFind 9
      (.mk none (some [.mk none none none none none none
        (some (.mk none none none none none
          (some (.mk none (some .asc) none none none none none none)) none none)) none])
        none none) := by
  decide

/-! ### The notification channel is never written

`BaseIDBModelClass` defines `subscribe`/`unsubscribe`/`emit`, but no
generated method ever calls `emit`: the `events` component of the
transaction state is invariant under every engine operation. -/

theorem events_bindE {α β : Type} (m : EngineM α) (f : α → EngineM β)
    (hm : ∀ tx, (m tx).1.events = tx.events)
    (hf : ∀ a tx, (f a tx).1.events = tx.events) (tx : TxState) :
    (bindE m f tx).1.events = tx.events := by
  unfold bindE
  cases h : m tx with
  | mk tx' r =>
    have h1 := hm tx
    rw [h] at h1
    cases r with
    | ok a => exact (hf a tx').trans h1
    | error e => exact h1

theorem events_match_opt {γ α : Type} (o : Option γ) (mn : EngineM α)
    (ms : γ → EngineM α)
    (hn : ∀ tx, (mn tx).1.events = tx.events)
    (hs : ∀ r tx, (ms r tx).1.events = tx.events) (tx : TxState) :
    ((match o with | none => mn | some r => ms r) tx).1.events = tx.events := by
  cases o with
  | none => exact hn tx
  | some r => exact hs r tx

theorem userFindUniqueOrThrow_events (w : UserUniqueWhere) (tx : TxState) :
    (userFindUniqueOrThrow w tx).1.events = tx.events := by
  simp only [userFindUniqueOrThrow, Bind.bind]
  apply events_bindE
  · intro t; rfl
  · intro db t
    cases userFindUnique db w <;> rfl

theorem postFindUniqueOrThrow_events (w : PostUniqueWhere) (tx : TxState) :
    (postFindUniqueOrThrow w tx).1.events = tx.events := by
  simp only [postFindUniqueOrThrow, Bind.bind]
  apply events_bindE
  · intro t; rfl
  · intro db t
    cases postFindUnique db w <;> rfl

theorem userFindFirstOrThrow_events (q : UserFindQuery) (tx : TxState) :
    (userFindFirstOrThrow q tx).1.events = tx.events := by
  simp only [userFindFirstOrThrow, Bind.bind]
  apply events_bindE
  · intro t; rfl
  · intro db t
    cases userFindFirst db q <;> rfl

theorem profileUpdate_events (q : ProfileUpdateQuery) (tx : TxState) :
    (profileUpdate q tx).1.events = tx.events := by
  simp only [profileUpdate, Bind.bind]
  apply events_bindE
  · intro t; rfl
  · intro db t
    cases profileFindUnique db q.whereU with
    | none => rfl
    | some r =>
      apply events_bindE
      · intro t2; rfl
      · intro k t2
        apply events_bindE
        · intro t3; rfl
        · intro db2 t3
          cases profileFindUnique db2 ⟨some k, none⟩ <;> rfl

theorem postUpdate_events (q : PostUpdateQuery) (tx : TxState) :
    (postUpdate q tx).1.events = tx.events := by
  simp only [postUpdate, Bind.bind]
  apply events_bindE
  · intro t; rfl
  · intro db t
    cases postFindUnique db q.whereU with
    | none => rfl
    | some r =>
      apply events_bindE
      · intro t2; rfl
      · intro k t2
        apply events_bindE
        · intro t3; rfl
        · intro db2 t3
          cases postFindUnique db2 ⟨some k⟩ <;> rfl

theorem commentUpdate_events (q : CommentUpdateQuery) (tx : TxState) :
    (commentUpdate q tx).1.events = tx.events := by
  simp only [commentUpdate, Bind.bind]
  apply events_bindE
  · intro t; rfl
  · intro db t
    cases commentFindUnique db q.whereU with
    | none => rfl
    | some r =>
      apply events_bindE
      · intro t2; rfl
      · intro k t2
        apply events_bindE
        · intro t3; rfl
        · intro db2 t3
          cases commentFindUnique db2 ⟨some k⟩ <;> rfl

theorem userUpdate_events (q : UserUpdateQuery) (tx : TxState) :
    (userUpdate q tx).1.events = tx.events := by
  simp only [userUpdate, Bind.bind]
  apply events_bindE
  · intro t; rfl
  · intro db t
    cases userFindUnique db q.whereU with
    | none => rfl
    | some r =>
      apply events_bindE
      · intro t2; rfl
      · intro k t2
        apply events_bindE
        · intro t3; rfl
        · intro db2 t3
          cases userFindUnique db2 ⟨some k⟩ <;> rfl

theorem profileDelete_events (w : ProfileUniqueWhere) (tx : TxState) :
    (profileDelete w tx).1.events = tx.events := by
  simp only [profileDelete, Bind.bind]
  apply events_bindE
  · intro t; rfl
  · intro db t
    cases profileFindUnique db w <;> rfl

theorem commentDelete_events (w : CommentUniqueWhere) (tx : TxState) :
    (commentDelete w tx).1.events = tx.events := by
  simp only [commentDelete, Bind.bind]
  apply events_bindE
  · intro t; rfl
  · intro db t
    cases commentFindUnique db w <;> rfl

theorem profileDeleteManyLoop_events (l : List ProfileRecord) :
    ∀ tx : TxState, (profileDeleteManyLoop l tx).1.events = tx.events := by
  induction l with
  | nil => intro tx; rfl
  | cons r rest ih =>
    intro tx
    simp only [profileDeleteManyLoop, Bind.bind]
    exact events_bindE _ _ (profileDelete_events _) (fun _ t => ih t) tx

theorem profileDeleteMany_events (q : ProfileFindQuery) (tx : TxState) :
    (profileDeleteMany q tx).1.events = tx.events := by
  simp only [profileDeleteMany, Bind.bind]
  apply events_bindE
  · intro t; rfl
  · intro db t
    exact events_bindE _ _ (fun t2 => profileDeleteManyLoop_events _ t2)
      (fun _ _ => rfl) t

theorem commentDeleteManyLoop_events (l : List CommentRecord) :
    ∀ tx : TxState, (commentDeleteManyLoop l tx).1.events = tx.events := by
  induction l with
  | nil => intro tx; rfl
  | cons r rest ih =>
    intro tx
    simp only [commentDeleteManyLoop, Bind.bind]
    exact events_bindE _ _ (commentDelete_events _) (fun _ t => ih t) tx

theorem commentDeleteMany_events (q : CommentFindQuery) (tx : TxState) :
    (commentDeleteMany q tx).1.events = tx.events := by
  simp only [commentDeleteMany, Bind.bind]
  apply events_bindE
  · intro t; rfl
  · intro db t
    exact events_bindE _ _ (fun t2 => commentDeleteManyLoop_events _ t2)
      (fun _ _ => rfl) t

theorem userDelete_events (w : UserUniqueWhere) (tx : TxState) :
    (userDelete w tx).1.events = tx.events := by
  simp only [userDelete, Bind.bind]
  apply events_bindE
  · intro t; rfl
  · intro db t
    cases userFindUnique db w with
    | none => rfl
    | some r =>
      apply events_bindE
      · intro t2; exact profileDeleteMany_events _ t2
      · intro _ t2
        apply events_bindE
        · intro t3; exact commentDeleteMany_events _ t3
        · intro _ t3
          rfl

theorem commentFillDefaults_events (d : CommentCreateData) (tx : TxState) :
    (commentFillDefaults d tx).1.events = tx.events := by
  cases d with
  | mk id post postId user userId text => cases id <;> rfl

theorem postCreateManyLoop_events (l : List PostCreateData) :
    ∀ tx : TxState, (postCreateManyLoop l tx).1.events = tx.events := by
  induction l with
  | nil => intro tx; rfl
  | cons d rest ih =>
    intro tx
    simp only [postCreateManyLoop, Bind.bind]
    apply events_bindE
    · intro t; rfl
    · intro db t
      exact events_bindE _ _ (fun _ => rfl) (fun _ t2 => ih t2) t

theorem postCreateMany_events (data : List PostCreateData) (tx : TxState) :
    (postCreateMany data tx).1.events = tx.events := by
  simp only [postCreateMany, Bind.bind]
  exact events_bindE _ _ (fun t => postCreateManyLoop_events _ t) (fun _ _ => rfl) tx

theorem commentCreateManyLoop_events (l : List CommentCreateData) :
    ∀ tx : TxState, (commentCreateManyLoop l tx).1.events = tx.events := by
  induction l with
  | nil => intro tx; rfl
  | cons d rest ih =>
    intro tx
    simp only [commentCreateManyLoop, Bind.bind]
    apply events_bindE
    · intro t; exact commentFillDefaults_events _ t
    · intro d' t
      exact events_bindE _ _ (fun _ => rfl) (fun _ t2 => ih t2) t

theorem commentCreateMany_events (data : List CommentCreateData) (tx : TxState) :
    (commentCreateMany data tx).1.events = tx.events := by
  simp only [commentCreateMany, Bind.bind]
  exact events_bindE _ _ (fun t => commentCreateManyLoop_events _ t) (fun _ _ => rfl) tx

theorem postsConnectLoop_events (k : Int) (l : List PostUniqueWhere) :
    ∀ tx : TxState, (postsConnectLoop k l tx).1.events = tx.events := by
  induction l with
  | nil => intro tx; rfl
  | cons w rest ih =>
    intro tx
    simp only [postsConnectLoop, Bind.bind]
    exact events_bindE _ _ (postUpdate_events _) (fun _ t => ih t) tx

theorem commentsConnectLoopUser_events (k : Int) (l : List CommentUniqueWhere) :
    ∀ tx : TxState, (commentsConnectLoopUser k l tx).1.events = tx.events := by
  induction l with
  | nil => intro tx; rfl
  | cons w rest ih =>
    intro tx
    simp only [commentsConnectLoopUser, Bind.bind]
    exact events_bindE _ _ (commentUpdate_events _) (fun _ t => ih t) tx

theorem commentsConnectLoopPost_events (k : Int) (l : List CommentUniqueWhere) :
    ∀ tx : TxState, (commentsConnectLoopPost k l tx).1.events = tx.events := by
  induction l with
  | nil => intro tx; rfl
  | cons w rest ih =>
    intro tx
    simp only [commentsConnectLoopPost, Bind.bind]
    exact events_bindE _ _ (commentUpdate_events _) (fun _ t => ih t) tx

theorem creates_events : ∀ n : Nat,
    (∀ (d : UserCreateData) (tx : TxState),
      (userCreate n d tx).1.events = tx.events)
  ∧ (∀ (d : ProfileCreateData) (tx : TxState),
      (profileCreate n d tx).1.events = tx.events)
  ∧ (∀ (d : PostCreateData) (tx : TxState),
      (postCreate n d tx).1.events = tx.events)
  ∧ (∀ (d : CommentCreateData) (tx : TxState),
      (commentCreate n d tx).1.events = tx.events)
  ∧ (∀ (k : Int) (l : List PostCreateData) (tx : TxState),
      (postsCreateLoop n k l tx).1.events = tx.events)
  ∧ (∀ (k : Int) (l : List CommentCreateData) (tx : TxState),
      (commentsCreateLoopUser n k l tx).1.events = tx.events)
  ∧ (∀ (k : Int) (l : List CommentCreateData) (tx : TxState),
      (commentsCreateLoopPost n k l tx).1.events = tx.events) := by
  intro n
  induction n with
  | zero =>
    exact ⟨fun _ _ => rfl, fun _ _ => rfl, fun _ _ => rfl, fun _ _ => rfl,
      fun _ _ _ => rfl, fun _ _ _ => rfl, fun _ _ _ => rfl⟩
  | succ n ih =>
    obtain ⟨ihU, ihP, ihPo, ihC, ihPL, ihCLU, ihCLP⟩ := ih
    refine ⟨?_, ?_, ?_, ?_, ?_, ?_, ?_⟩
    · -- userCreate
      intro d tx
      obtain ⟨id, name, profile, posts, comments⟩ := d
      simp only [userCreate, Bind.bind]
      apply events_bindE
      · intro t; rfl
      · intro db t
        apply events_bindE
        · intro t2; rfl
        · intro kp t2
          apply events_bindE
          · intro t3
            rcases profile with _ | ⟨pcreate, pconnect, pcoc⟩
            · rfl
            · apply events_bindE
              · intro t4
                cases pcreate with
                | none => rfl
                | some pc =>
                  exact events_bindE _ _ (fun t5 => ihP _ t5) (fun _ _ => rfl) t4
              · intro _ t4
                apply events_bindE
                · intro t5
                  cases pconnect with
                  | none => rfl
                  | some w =>
                    exact events_bindE _ _ (profileUpdate_events _) (fun _ _ => rfl) t5
                · intro _ t5
                  cases pcoc <;> rfl
          · intro _ t3
            apply events_bindE
            · intro t4
              rcases posts with _ | ⟨pcreate, pconnect, pcoc, pcreateMany⟩
              · rfl
              · apply events_bindE
                · intro t5; exact ihPL kp pcreate t5
                · intro _ t5
                  apply events_bindE
                  · intro t6; exact postsConnectLoop_events kp pconnect t6
                  · intro _ t6
                    apply events_bindE
                    · intro t7; cases pcoc <;> rfl
                    · intro _ t7
                      cases pcreateMany with
                      | none => rfl
                      | some ds =>
                        exact events_bindE _ _ (postCreateMany_events _) (fun _ _ => rfl) t7
            · intro _ t4
              apply events_bindE
              · intro t5
                rcases comments with _ | ⟨ccreate, cconnect, ccoc, ccreateMany⟩
                · rfl
                · apply events_bindE
                  · intro t6; exact ihCLU kp ccreate t6
                  · intro _ t6
                    apply events_bindE
                    · intro t7; exact commentsConnectLoopUser_events kp cconnect t7
                    · intro _ t7
                      apply events_bindE
                      · intro t8; cases ccoc <;> rfl
                      · intro _ t8
                        cases ccreateMany with
                        | none => rfl
                        | some ds =>
                          exact events_bindE _ _ (commentCreateMany_events _) (fun _ _ => rfl) t8
              · intro _ t5
                apply events_bindE
                · intro t6; rfl
                · intro db2 t6
                  cases db2.user.find? (fun r => r.id == kp) <;> rfl
    · -- profileCreate
      intro d tx
      obtain ⟨id, bio, user, userId⟩ := d
      simp only [profileCreate, Bind.bind]
      apply events_bindE
      · intro t
        rcases user with _ | ⟨ucreate, uconnect, ucoc⟩
        · cases userId with
          | none => rfl
          | some v =>
            exact events_bindE _ _
              (fun t2 => events_bindE _ _ (userFindUniqueOrThrow_events _) (fun _ _ => rfl) t2)
              (fun _ _ => rfl) t
        · apply events_bindE
          · intro t2
            cases ucreate with
            | none => rfl
            | some uc => exact events_bindE _ _ (fun t3 => ihU uc t3) (fun _ _ => rfl) t2
          · intro fk1 t2
            apply events_bindE
            · intro t3
              cases uconnect with
              | none => rfl
              | some w =>
                exact events_bindE _ _ (userFindUniqueOrThrow_events _) (fun _ _ => rfl) t3
            · intro fk2 t3
              cases ucoc <;> rfl
      · intro d' t
        apply events_bindE
        · intro t2; rfl
        · intro db t2
          apply events_bindE
          · intro t3; rfl
          · intro kp t3
            apply events_bindE
            · intro t4; rfl
            · intro db2 t4
              cases db2.profile.find? (fun r => r.id == kp) <;> rfl
    · -- postCreate
      intro d tx
      obtain ⟨id, title, author, authorId, tags, numberArr, comments⟩ := d
      simp only [postCreate, Bind.bind]
      apply events_bindE
      · intro t
        rcases author with _ | ⟨ucreate, uconnect, ucoc⟩
        · cases authorId with
          | none => rfl
          | some ov =>
            cases ov with
            | none => rfl
            | some v =>
              exact events_bindE _ _
                (fun t2 => events_bindE _ _ (userFindUniqueOrThrow_events _) (fun _ _ => rfl) t2)
                (fun _ _ => rfl) t
        · apply events_bindE
          · intro t2
            cases ucreate with
            | none => rfl
            | some uc => exact events_bindE _ _ (fun t3 => ihU uc t3) (fun _ _ => rfl) t2
          · intro fk1 t2
            apply events_bindE
            · intro t3
              cases uconnect with
              | none => rfl
              | some w =>
                exact events_bindE _ _ (userFindUniqueOrThrow_events _) (fun _ _ => rfl) t3
            · intro fk2 t3
              cases ucoc <;> rfl
      · intro d' t
        apply events_bindE
        · intro t2; rfl
        · intro db t2
          apply events_bindE
          · intro t3; rfl
          · intro kp t3
            apply events_bindE
            · intro t4
              obtain ⟨id2, title2, author2, authorId2, tags2, numberArr2, comments2⟩ := d'
              rcases comments2 with _ | ⟨ccreate, cconnect, ccoc, ccreateMany⟩
              · rfl
              · apply events_bindE
                · intro t5; exact ihCLP kp ccreate t5
                · intro _ t5
                  apply events_bindE
                  · intro t6; exact commentsConnectLoopPost_events kp cconnect t6
                  · intro _ t6
                    apply events_bindE
                    · intro t7; cases ccoc <;> rfl
                    · intro _ t7
                      cases ccreateMany with
                      | none => rfl
                      | some ds =>
                        exact events_bindE _ _ (commentCreateMany_events _) (fun _ _ => rfl) t7
            · intro _ t4
              apply events_bindE
              · intro t5; rfl
              · intro db2 t5
                cases db2.post.find? (fun r => r.id == kp) <;> rfl
    · -- commentCreate
      intro d tx
      obtain ⟨id, post, postId, user, userId, text⟩ := d
      simp only [commentCreate, Bind.bind]
      apply events_bindE
      · intro t
        rcases post with _ | ⟨pcreate, pconnect, pcoc⟩
        · cases postId with
          | none => rfl
          | some v =>
            exact events_bindE _ _
              (fun t2 => events_bindE _ _ (postFindUniqueOrThrow_events _) (fun _ _ => rfl) t2)
              (fun _ _ => rfl) t
        · apply events_bindE
          · intro t2
            cases pcreate with
            | none => rfl
            | some pc => exact events_bindE _ _ (fun t3 => ihPo pc t3) (fun _ _ => rfl) t2
          · intro fk1 t2
            apply events_bindE
            · intro t3
              cases pconnect with
              | none => rfl
              | some w =>
                exact events_bindE _ _ (postFindUniqueOrThrow_events _) (fun _ _ => rfl) t3
            · intro fk2 t3
              cases pcoc <;> rfl
      · intro d1 t
        apply events_bindE
        · intro t1
          obtain ⟨id1, post1, postId1, user1, userId1, text1⟩ := d1
          rcases user1 with _ | ⟨ucreate, uconnect, ucoc⟩
          · cases userId1 with
            | none => rfl
            | some v =>
              exact events_bindE _ _
                (fun t2 => events_bindE _ _ (userFindUniqueOrThrow_events _) (fun _ _ => rfl) t2)
                (fun _ _ => rfl) t1
          · apply events_bindE
            · intro t2
              cases ucreate with
              | none => rfl
              | some uc => exact events_bindE _ _ (fun t3 => ihU uc t3) (fun _ _ => rfl) t2
            · intro fk1 t2
              apply events_bindE
              · intro t3
                cases uconnect with
                | none => rfl
                | some w =>
                  exact events_bindE _ _ (userFindUniqueOrThrow_events _) (fun _ _ => rfl) t3
              · intro fk2 t3
                cases ucoc <;> rfl
        · intro d2 t1
          apply events_bindE
          · intro t2; exact commentFillDefaults_events _ t2
          · intro d3 t2
            apply events_bindE
            · intro t3; rfl
            · intro kp t3
              apply events_bindE
              · intro t4; rfl
              · intro db2 t4
                cases db2.comment.find? (fun r => r.id == kp) <;> rfl
    · -- postsCreateLoop
      intro k l tx
      cases l with
      | nil => rfl
      | cons cd rest =>
        simp only [postsCreateLoop, Bind.bind]
        exact events_bindE _ _ (fun t => ihPo _ t) (fun _ t => ihPL k rest t) tx
    · -- commentsCreateLoopUser
      intro k l tx
      cases l with
      | nil => rfl
      | cons elem rest =>
        simp only [commentsCreateLoopUser, Bind.bind]
        obtain ⟨id, post, postId, user, userId, text⟩ := elem
        apply events_bindE
        · intro t
          cases post <;> cases postId <;>
            first
            | rfl
            | exact events_bindE _ _ (fun t2 => ihC _ t2) (fun _ _ => rfl) t
        · intro _ t
          exact ihCLU k rest t
    · -- commentsCreateLoopPost
      intro k l tx
      cases l with
      | nil => rfl
      | cons elem rest =>
        simp only [commentsCreateLoopPost, Bind.bind]
        obtain ⟨id, post, postId, user, userId, text⟩ := elem
        apply events_bindE
        · intro t
          cases user <;> cases userId <;>
            first
            | rfl
            | exact events_bindE _ _ (fun t2 => ihC _ t2) (fun _ _ => rfl) t
        · intro _ t
          exact ihCLP k rest t

/-- Claim C4 (amended): `BaseIDBModelClass` exposes
`subscribe`/`unsubscribe` and defines `emit`, but no generated method
ever calls `emit` — every engine operation (create at any fuel, update,
delete, across the entities) leaves the event log untouched, so no
create/update/delete notification is ever delivered to any subscriber.
The original claim, that each successful write emits its corresponding
eventKind to the subscribed callbacks, is false. -/
theorem c4_no_notifications :
    (∀ (n : Nat) (d : UserCreateData) (tx : TxState),
      (userCreate n d tx).1.events = tx.events)
  ∧ (∀ (q : UserUpdateQuery) (tx : TxState),
      (userUpdate q tx).1.events = tx.events)
  ∧ (∀ (w : UserUniqueWhere) (tx : TxState),
      (userDelete w tx).1.events = tx.events)
  ∧ (∀ (n : Nat) (d : ProfileCreateData) (tx : TxState),
      (profileCreate n d tx).1.events = tx.events)
  ∧ (∀ (n : Nat) (d : PostCreateData) (tx : TxState),
      (postCreate n d tx).1.events = tx.events)
  ∧ (∀ (n : Nat) (d : CommentCreateData) (tx : TxState),
      (commentCreate n d tx).1.events = tx.events) :=
  ⟨fun n => (creates_events n).1,
   userUpdate_events,
   userDelete_events,
   fun n => (creates_events n).2.1,
   fun n => (creates_events n).2.2.1,
   fun n => (creates_events n).2.2.2.1⟩

/-- Counterexample to C4 as stated: a successful `user.create` on an
empty database returns the new record, yet the event log afterwards is
empty — no `"create"` notification was emitted. -/
theorem c4_counterexample :
    (userCreate 2 (.mk none "John" none none none)
        ⟨⟨[], [], [], []⟩, false, [], (fun _ => "g"), 0⟩).2 = .ok ⟨1, "John"⟩
  ∧ (userCreate 2 (.mk none "John" none none none)
        ⟨⟨[], [], [], []⟩, false, [], (fun _ => "g"), 0⟩).1.events = [] := by
  decide

/-! ### Order-by claim support -/

theorem userCmp_le_total (cs : List UserOrderClause) (x y : UserRecord) :
    (userCmpClauses cs x y != Ordering.gt) = true ∨
    (userCmpClauses cs y x != Ordering.gt) = true := by
  cases h : userCmpClauses cs x y with
  | lt => left; rfl
  | eq => left; rfl
  | gt =>
    right
    have hs := userCmpClauses_swap cs x y
    rw [h] at hs
    rw [← hs]
    rfl

theorem userCmp_le_transB (cs : List UserOrderClause) (x y z : UserRecord)
    (h1 : (userCmpClauses cs x y != Ordering.gt) = true)
    (h2 : (userCmpClauses cs y z != Ordering.gt) = true) :
    (userCmpClauses cs x z != Ordering.gt) = true := by
  have h1' : userCmpClauses cs x y ≠ .gt := by
    intro he; rw [he] at h1; exact absurd h1 (by decide)
  have h2' : userCmpClauses cs y z ≠ .gt := by
    intro he; rw [he] at h2; exact absurd h2 (by decide)
  have h3 := userCmpClauses_le_trans cs x y z h1' h2'
  cases h : userCmpClauses cs x z with
  | lt => rfl
  | eq => rfl
  | gt => exact absurd h h3

/-- Claim C6 (amended): multi-clause `orderBy` sorts by the composite
comparator (the first clause whose comparison is non-zero decides; each
clause's direction is honoured), producing a permutation of the input
that is totally ordered by the comparator. Reversing every clause's
direction yields exactly the reverse sequence only when no two distinct
records of the list compare equal under all clauses (and every clause
names a field): with ties, the stable sort keeps scan order in both
directions, so the flipped result is NOT the reverse of the original.
The unconditional reversal property of the original claim is false. -/
theorem c6_orderby_total_and_reversal (cs : List UserOrderClause)
    (l : List UserRecord) :
    (userApplyOrderByClause l (some cs)).Perm l
  ∧ (userApplyOrderByClause l (some cs)).Pairwise
      (fun a b => (userCmpClauses cs a b != Ordering.gt) = true)
  ∧ ((∀ a ∈ l, ∀ b ∈ l, userCmpClauses cs a b = .eq → a = b) →
     (∀ c ∈ cs, (userResolveSortOrder c).isSome) →
     userApplyOrderByClause l (some (cs.map flipUserOrderClause)) =
       (userApplyOrderByClause l (some cs)).reverse) := by
  refine ⟨insertionSortBy_perm _ l,
    pairwise_insertionSortBy _ (userCmp_le_total cs) (userCmp_le_transB cs) l, ?_⟩
  intro hanti hwf
  have hflip : ∀ a b : UserRecord,
      userCmpClauses (cs.map flipUserOrderClause) a b = (userCmpClauses cs a b).swap :=
    fun a b => userCmpClauses_flip cs a b hwf
  have hflip2 : ∀ a b : UserRecord,
      userCmpClauses (cs.map flipUserOrderClause) b a = userCmpClauses cs a b := by
    intro a b
    rw [hflip b a, ← userCmpClauses_swap cs a b, Ordering.swap_swap]
  simp only [userApplyOrderByClause]
  have hS : (insertionSortBy (fun a b => userCmpClauses cs a b != Ordering.gt) l).Pairwise
      (fun a b => (userCmpClauses cs a b != Ordering.gt) = true) :=
    pairwise_insertionSortBy _ (userCmp_le_total cs) (userCmp_le_transB cs) l
  have hperm : (insertionSortBy
        (fun a b => userCmpClauses (cs.map flipUserOrderClause) a b != Ordering.gt) l).Perm
      ((insertionSortBy (fun a b => userCmpClauses cs a b != Ordering.gt) l).reverse) :=
    (insertionSortBy_perm _ l).trans
      ((insertionSortBy_perm (fun a b => userCmpClauses cs a b != Ordering.gt) l).symm.trans
        (List.reverse_perm _).symm)
  have h1 : (insertionSortBy
        (fun a b => userCmpClauses (cs.map flipUserOrderClause) a b != Ordering.gt) l).Pairwise
      (fun a b => (userCmpClauses (cs.map flipUserOrderClause) a b != Ordering.gt) = true) :=
    pairwise_insertionSortBy _ (userCmp_le_total _) (userCmp_le_transB _) l
  have h2 : ((insertionSortBy (fun a b => userCmpClauses cs a b != Ordering.gt) l).reverse).Pairwise
      (fun a b => (userCmpClauses (cs.map flipUserOrderClause) a b != Ordering.gt) = true) := by
    rw [List.pairwise_reverse]
    refine hS.imp ?_
    intro a b h
    rw [hflip2 a b]
    exact h
  refine pairwise_perm_eq hperm h1 h2 ?_
  intro a ha b hb hab hba
  have hal : a ∈ l := ((insertionSortBy_perm _ l).mem_iff).mp ha
  have hbl : b ∈ l := ((insertionSortBy_perm _ l).mem_iff).mp hb
  apply hanti a hal b hbl
  rw [hflip a b] at hab
  rw [hflip2 a b] at hba
  cases h : userCmpClauses cs a b with
  | eq => rfl
  | lt => rw [h] at hab; exact absurd hab (by decide)
  | gt => rw [h] at hba; exact absurd hba (by decide)

/-- Witness for C6: two users with distinct names ordered by `name asc` —
the sort is a permutation, pairwise ordered, and flipping the direction
reverses the result. -/
theorem c6_orderby_total_and_reversal_witness :
    (userApplyOrderByClause [⟨1, "b"⟩, ⟨2, "a"⟩]
      (some [⟨none, some .asc⟩])).Perm [⟨1, "b"⟩, ⟨2, "a"⟩]
  ∧ (userApplyOrderByClause [⟨1, "b"⟩, ⟨2, "a"⟩]
      (some [⟨none, some .asc⟩])).Pairwise
      (fun a b => (userCmpClauses [⟨none, some .asc⟩] a b != Ordering.gt) = true)
  ∧ userApplyOrderByClause [⟨1, "b"⟩, ⟨2, "a"⟩]
      (some ([⟨none, some .asc⟩].map flipUserOrderClause)) =
      (userApplyOrderByClause [⟨1, "b"⟩, ⟨2, "a"⟩]
        (some [⟨none, some .asc⟩])).reverse :=
  ⟨(c6_orderby_total_and_reversal [⟨none, some .asc⟩] [⟨1, "b"⟩, ⟨2, "a"⟩]).1,
   (c6_orderby_total_and_reversal [⟨none, some .asc⟩] [⟨1, "b"⟩, ⟨2, "a"⟩]).2.1,
   (c6_orderby_total_and_reversal [⟨none, some .asc⟩] [⟨1, "b"⟩, ⟨2, "a"⟩]).2.2
     (by decide) (by decide)⟩

/-- Counterexample to C6 as stated: two users with the SAME name ordered
by `name asc` — the stable sort keeps scan order `[1, 2]` in both
directions, so sorting with the direction reversed does not reverse the
result sequence. -/
theorem c6_counterexample :
    ¬ (userApplyOrderByClause [⟨1, "a"⟩, ⟨2, "a"⟩]
        (some ([⟨none, some .asc⟩].map flipUserOrderClause)) =
       (userApplyOrderByClause [⟨1, "a"⟩, ⟨2, "a"⟩]
        (some [⟨none, some .asc⟩])).reverse) := by
  decide
